import Mathlib

/-!
Verification of the distribution resolution, build, and installation pipeline
of `pex/resolver.py` (the repository's vendored pex resolver core).

The Python source is shallowly embedded: the pure data model (requests,
results, distributions, errors) is translated into Lean structures; the
mutable on-disk cache of atomic directories is explicit state passed through
the functions; external collaborators (pip jobs, the metadata reader, the
interpreter/tag identification, the version/specifier oracle) are fields of
an `Env` record, as the specification declares them opaque interfaces.

Python exceptions become an explicit `PexError` sum type; each constructor
records the data interpolated into the corresponding exception message, and
`PexError.pyClass` records which Python exception class is raised.
-/

namespace PexResolver

/-- Versions are consumed through an opaque "does version V satisfy
specifier S" oracle; we represent a version as a natural number token. -/
abbrev Version := Nat

/-- A canonical project name (pex.pep_503.ProjectName), an opaque string. -/
abbrev ProjectName := String

/-- A distribution target (interpreter + platform + ABI); its identifying
methods are opaque interfaces, represented by `Env` oracles keyed on the
target's id string. -/
abbrev Target := String

/-- Opaque token for a set of PEP 425 compatibility tags
(pex.pep_425.CompatibilityTags). -/
abbrev Tags := Nat

/-- A parsed URL, standing for the result of `urlparse.urlparse` plus
`url_unquote` applied to a requirement's direct-reference URL (the parsing
library is an external collaborator, so the parsed form is embedded). -/
structure Url where
  scheme : String
  path : String
deriving DecidableEq

/-- A parsed runtime requirement (pex.dist_metadata.Requirement): project
name, optional direct-reference URL, a version specifier, and an optional
environment-marker applicability.  The specifier is the opaque oracle
"does version V satisfy specifier S" represented extensionally by the list
of admitted version tokens; the marker is represented extensionally by the
list of target ids it applies to (`none` means no marker: applies
everywhere). -/
structure Requirement where
  project_name : ProjectName
  url : Option Url
  specifier : List Version
  marker_targets : Option (List Target)
deriving DecidableEq

/-- The version/specifier oracle `requirement.specifier.contains(version)`. -/
def Requirement.specifier_contains (r : Requirement) (v : Version) : Bool :=
  r.specifier.contains v

/-- The marker oracle `target.requirement_applies(requirement)`. -/
def Target.requirement_applies (t : Target) (r : Requirement) : Bool :=
  match r.marker_targets with
  | none => true
  | some ts => ts.contains t

/-- Distribution metadata (pex.dist_metadata.DistMetadata / Distribution):
project name, version, and declared runtime requirements, as returned by the
external metadata reader. -/
structure Distribution where
  project_name : ProjectName
  version : Version
  requires_dists : List Requirement
deriving DecidableEq

/-- `Distribution.requires()` returns the declared runtime requirements. -/
def Distribution.requires (d : Distribution) : List Requirement :=
  d.requires_dists

/-- BuildRequest: (target, source_path, content fingerprint). -/
structure BuildRequest where
  target : Target
  source_path : String
  fingerprint : String
deriving DecidableEq

/-- InstallRequest: (target, wheel_path, content fingerprint). -/
structure InstallRequest where
  target : Target
  wheel_path : String
  fingerprint : String
deriving DecidableEq

/-- A distribution together with the fingerprint it is cached under
(pex.fingerprinted_distribution.FingerprintedDistribution). -/
structure FingerprintedDistribution where
  distribution : Distribution
  fingerprint : String
deriving DecidableEq

/-- An installed distribution for a target, with the user-facing direct
requirements it satisfies (pex.resolve.resolvers.InstalledDistribution). -/
structure InstalledDistribution where
  target : Target
  fingerprinted_distribution : FingerprintedDistribution
  direct_requirements : List Requirement := []
deriving DecidableEq

/-- `InstalledDistribution.distribution` property. -/
def InstalledDistribution.distribution (d : InstalledDistribution) : Distribution :=
  d.fingerprinted_distribution.distribution

/-- `InstalledDistribution.with_direct_requirements`. -/
def InstalledDistribution.with_direct_requirements (d : InstalledDistribution)
    (reqs : List Requirement) : InstalledDistribution :=
  { d with direct_requirements := reqs }

/-- A local distribution discovered by an earlier step, possibly carrying a
pre-supplied fingerprint; the empty string models a falsy (absent)
fingerprint, matching the truthiness test in the source. -/
structure LocalDistribution where
  path : String
  fingerprint : String
  target : Target
deriving DecidableEq

/-- One enumerated failure collected by `_check_install`; the fields are the
data interpolated into the corresponding failure line of the aggregated
Unsatisfiable message. -/
inductive Violation where
  | missing (dist : ProjectName × Version) (requirement : Requirement)
  | versionMismatch (dist : ProjectName × Version) (requirement : Requirement)
      (resolved : ProjectName × Version)
deriving DecidableEq

/-- The exceptions raised by the embedded code.  Each constructor carries
the data interpolated into the exception's message; `pyClass` below gives
the Python exception class raised at the corresponding source site. -/
inductive PexError where
  | integrityError (path : String) (expected : String) (actual : String)
  | buildWrongArtifactCount (source_path : String) (count : Nat) (wheels : List String)
  | noPrebuiltWheelForeign (project : String) (version : String) (wheel : String)
      (sdist : String) (target : Target)
  | missingFileDep (wheel : String) (url : Url)
  | unsatisfiedCheck (failures : List Violation)
  | noProjectNameForLocalReq (path : String)
deriving DecidableEq

/-- The Python exception class raised at each embedded raise site:
`IntegrityError` for the fingerprint mismatches in `from_local_distribution`;
`AssertionError` for the artifact-count check in `finalize_build` and the
missing-project-name check in `install_distributions`; `ValueError` for the
foreign-target wheel-tag check in `finalize_build`; `Unsatisfiable` for the
missing file dependency and the final consistency check. -/
def PexError.pyClass : PexError → String
  | .integrityError .. => "IntegrityError"
  | .buildWrongArtifactCount .. => "AssertionError"
  | .noPrebuiltWheelForeign .. => "ValueError"
  | .missingFileDep .. => "Unsatisfiable"
  | .unsatisfiedCheck .. => "Unsatisfiable"
  | .noProjectNameForLocalReq .. => "AssertionError"

/-- `os.path.join` for the path shapes used by the resolver. -/
def pjoin (a b : String) : String := a ++ "/" ++ b

/-- Helper for `basename`: keep the characters after the last slash. -/
def basenameAux : List Char → List Char → List Char
  | [], acc => acc
  | c :: rest, acc => if c = '/' then basenameAux rest [] else basenameAux rest (acc ++ [c])

/-- `os.path.basename`. -/
def basename (p : String) : String := String.mk (basenameAux p.data [])

/-- `str.endswith`. -/
def strEndsWith (s suffix : String) : Bool := suffix.data.isSuffixOf s.data

/-- The environment of external collaborators consumed by the pipeline:
filesystem queries, the content fingerprinter as used by the pipeline (an
opaque deterministic function of the path, the filesystem being fixed for
the duration of a call), the target identification oracles, the wheel tag
parser and tag-compatibility oracle, the distribution metadata reader, and
the external pip wheel-build job (returning the artifact file names it
writes into the request's work directory). -/
structure Env where
  isfile : String → Bool
  pathExists : String → Bool
  listdir : String → List String
  fingerprint : String → String
  pythonTag : Target → String
  abiTag : Target → String
  platformTag : Target → String
  isForeign : Target → Bool
  supportedTagsCompatible : Target → Tags → Bool
  wheelTags : String → Tags
  loadDist : String → Distribution
  buildJob : BuildRequest → List String
  installJob : InstallRequest → List String
  pexRoot : String
  downloadsDest : String

/-- Modelled from the spec: the atomic directory cache (pex.atomic_directory,
not present under src/) is "a crash-safe directory-materialization
primitive: work is done in a private scratch directory, then atomically
promoted to a canonical, content-keyed final location exactly once"; the
cache state maps each finalized canonical directory to its file listing. -/
abbrev CacheState := List (String × List String)

/-- Modelled from the spec: `is_finalized()` "checks only: does the
canonical path already exist". -/
def isFinalized (σ : CacheState) (dir : String) : Bool :=
  (σ.lookup dir).isSome

/-- Modelled from the spec: `finalize()` promotes the work directory's
contents to the canonical path; a loser of the race (canonical path already
finalized) discards its work and the existing contents win. -/
def finalizeDir (σ : CacheState) (dir : String) (workContents : List String) : CacheState :=
  if isFinalized σ dir then σ else (dir, workContents) :: σ

/-- The file listing of a finalized canonical directory. -/
def finalContents (σ : CacheState) (dir : String) : List String :=
  (σ.lookup dir).getD []

/-!
Content model for `fingerprint_path` (claim C8).  `fingerprint_path`
dispatches to `CacheHelper.dir_hash` for directories and `CacheHelper.hash`
for regular files; `CacheHelper` (pex.util) is not under src/, so its hash
functions are modelled from the spec, parameterized by the underlying
cryptographic byte-stream hash (sha256 in the source).  A filesystem entry
is a file with byte content or a directory of named entries; the model
carries no timestamps or permissions, matching the spec's "no embedded
timestamps/permissions".
-/

mutual
/-- A filesystem entry: a regular file's bytes, or a directory. -/
inductive FsEntry where
  | file (content : List Nat)
  | dir (entries : FsDir)
/-- A directory's named entries, in the (arbitrary) order the filesystem
iterates them. -/
inductive FsDir where
  | nil
  | cons (name : String) (entry : FsEntry) (rest : FsDir)
end

/-- Build a directory from a list of named entries. -/
def FsDir.ofList : List (String × FsEntry) → FsDir
  | [] => FsDir.nil
  | (name, e) :: rest => FsDir.cons name e (FsDir.ofList rest)

/-- The full recursive file listing of a directory: relative path and byte
content of every file beneath it, in filesystem iteration order. -/
def dirListing : FsDir → List (String × List Nat)
  | .nil => []
  | .cons name (FsEntry.file c) rest => (name, c) :: dirListing rest
  | .cons name (FsEntry.dir es) rest =>
      (dirListing es).map (fun pc => (pjoin name pc.1, pc.2)) ++ dirListing rest

/-- One listing entry's contribution to the directory digest: the path's
bytes and the content's hash, delimited. -/
def encodeFileHash (hash : List Nat → Nat) (pc : String × List Nat) : List Nat :=
  (pc.1.data.map Char.toNat) ++ [0] ++ [hash pc.2] ++ [1]

/-- Modelled from the spec: `CacheHelper.hash` (pex.util, not under src/)
"streams a regular file's bytes through a cryptographic hash". -/
def CacheHelper.hash (hash : List Nat → Nat) (content : List Nat) : Nat :=
  hash content

/-- Modelled from the spec: `CacheHelper.dir_hash` (pex.util, not under
src/) "combines the hashes of the directory's full recursive file listing
(paths + contents) into one digest, deterministic regardless of filesystem
iteration order" — the listing is sorted by path before being combined. -/
def CacheHelper.dir_hash (hash : List Nat → Nat) (entries : FsDir) : Nat :=
  hash (((dirListing entries).mergeSort (fun a b => decide (a.1 ≤ b.1))).flatMap
    (encodeFileHash hash))

/-- The digest of a filesystem entry: `CacheHelper.hash` for a regular
file, `CacheHelper.dir_hash` for a directory. -/
def fingerprintEntry (hash : List Nat → Nat) : FsEntry → Nat
  | .file c => CacheHelper.hash hash c
  | .dir es => CacheHelper.dir_hash hash es

/-- `fingerprint_path(path)`: look the path up on the filesystem and digest
what is found (`none` when the path does not exist). -/
def fingerprint_path (hash : List Nat → Nat) (fs : String → Option FsEntry)
    (path : String) : Option Nat :=
  (fs path).map (fingerprintEntry hash)

instance : IsAntisymm (String × List Nat) (fun a b => a.1 < b.1) :=
  ⟨fun _ _ h1 h2 => absurd h2 (lt_asymm h1)⟩

/-- Two permuted listings with no repeated path sort identically, hence
produce the same directory digest. -/
theorem mergeSort_eq_of_perm_of_nodup_keys (l₁ l₂ : List (String × List Nat))
    (hperm : l₁.Perm l₂) (hnodup : (l₁.map Prod.fst).Nodup) :
    l₁.mergeSort (fun a b => decide (a.1 ≤ b.1)) =
      l₂.mergeSort (fun a b => decide (a.1 ≤ b.1)) :=
by
  have htrans : ∀ a b c : String × List Nat,
      (decide (a.1 ≤ b.1)) = true → (decide (b.1 ≤ c.1)) = true →
      (decide (a.1 ≤ c.1)) = true := by
    intro a b c hab hbc
    simp only [decide_eq_true_eq] at *
    exact le_trans hab hbc
  have htot : ∀ a b : String × List Nat,
      ((decide (a.1 ≤ b.1)) || (decide (b.1 ≤ a.1))) = true := by
    intro a b
    simp only [Bool.or_eq_true, decide_eq_true_eq]
    exact le_total a.1 b.1
  have hs₁ := List.sorted_mergeSort htrans htot l₁
  have hs₂ := List.sorted_mergeSort htrans htot l₂
  have hp₁ : (l₁.mergeSort (fun a b => decide (a.1 ≤ b.1))).Perm l₁ :=
    List.mergeSort_perm l₁ _
  have hp₂ : (l₂.mergeSort (fun a b => decide (a.1 ≤ b.1))).Perm l₂ :=
    List.mergeSort_perm l₂ _
  have hperm₁₂ : (l₁.mergeSort (fun a b => decide (a.1 ≤ b.1))).Perm
      (l₂.mergeSort (fun a b => decide (a.1 ≤ b.1))) :=
    ((hp₁.trans hperm).trans hp₂.symm)
  -- sortedness by ≤ on keys plus distinct keys gives sortedness by < on keys
  have hnodup₁ : ((l₁.mergeSort (fun a b => decide (a.1 ≤ b.1))).map Prod.fst).Nodup := by
    exact ((hp₁.map Prod.fst).nodup_iff).mpr hnodup
  have hnodup₂ : ((l₂.mergeSort (fun a b => decide (a.1 ≤ b.1))).map Prod.fst).Nodup := by
    have : (l₂.map Prod.fst).Nodup := ((hperm.map Prod.fst).nodup_iff).mp hnodup
    exact ((hp₂.map Prod.fst).nodup_iff).mpr this
  have hlt : ∀ (l : List (String × List Nat)),
      List.Pairwise (fun a b => (decide (a.1 ≤ b.1)) = true) l →
      (l.map Prod.fst).Nodup → List.Sorted (fun a b : String × List Nat => a.1 < b.1) l := by
    intro l hle hnd
    have hne : List.Pairwise (fun a b : String × List Nat => a.1 ≠ b.1) l :=
      List.pairwise_map.mp hnd
    have := hle.and hne
    exact this.imp (fun h => lt_of_le_of_ne (of_decide_eq_true h.1) h.2)
  exact List.eq_of_perm_of_sorted hperm₁₂ (hlt _ hs₁ hnodup₁) (hlt _ hs₂ hnodup₂)

/-- C8. fingerprint_path is a deterministic function of file-system
content: two calls over paths holding identical bytes (the model holds no
mtime) return the identical digest, and for a directory the digest is
invariant under the order in which files are visited (any permutation of
the recursive listing with distinct paths), combining the listing's paths
and contents into one hash. -/
theorem claim_C8 (hash : List Nat → Nat) (fs₁ fs₂ : String → Option FsEntry)
    (p₁ p₂ : String) :
    (∀ c, fs₁ p₁ = some (FsEntry.file c) → fs₂ p₂ = some (FsEntry.file c) →
      fingerprint_path hash fs₁ p₁ = fingerprint_path hash fs₂ p₂)
    ∧ (∀ es₁ es₂, fs₁ p₁ = some (FsEntry.dir es₁) → fs₂ p₂ = some (FsEntry.dir es₂) →
      (dirListing es₁).Perm (dirListing es₂) →
      ((dirListing es₁).map Prod.fst).Nodup →
      fingerprint_path hash fs₁ p₁ = fingerprint_path hash fs₂ p₂) :=
by
  constructor
  · intro c h₁ h₂
    unfold fingerprint_path
    rw [h₁, h₂]
  · intro es₁ es₂ h₁ h₂ hperm hnodup
    unfold fingerprint_path
    rw [h₁, h₂]
    show some (fingerprintEntry hash (FsEntry.dir es₁))
      = some (fingerprintEntry hash (FsEntry.dir es₂))
    simp only [fingerprintEntry, CacheHelper.dir_hash]
    rw [mergeSort_eq_of_perm_of_nodup_keys _ _ hperm hnodup]

/-- Concrete filesystem for the C8 witness: the same file bytes under two
different paths, and the same directory contents listed in two different
orders under two different paths. -/
def fsWitnessA : String → Option FsEntry :=
  fun p =>
    if p = "a/f.whl" then some (FsEntry.file [7, 7, 7])
    else if p = "a/d" then
      some (FsEntry.dir (FsDir.ofList [("x", FsEntry.file [1]), ("y", FsEntry.file [2])]))
    else none

/-- Second concrete filesystem for the C8 witness. -/
def fsWitnessB : String → Option FsEntry :=
  fun p =>
    if p = "b/g.whl" then some (FsEntry.file [7, 7, 7])
    else if p = "b/d" then
      some (FsEntry.dir (FsDir.ofList [("y", FsEntry.file [2]), ("x", FsEntry.file [1])]))
    else none

/-- Witness for C8 at a concrete hash, filesystems, and paths. -/
theorem claim_C8_witness :
    fingerprint_path (fun l => l.sum) fsWitnessA "a/f.whl"
        = fingerprint_path (fun l => l.sum) fsWitnessB "b/g.whl"
    ∧ fingerprint_path (fun l => l.sum) fsWitnessA "a/d"
        = fingerprint_path (fun l => l.sum) fsWitnessB "b/d" :=
  ⟨(claim_C8 (fun l => l.sum) fsWitnessA fsWitnessB "a/f.whl" "b/g.whl").1
      [7, 7, 7] rfl rfl,
   (claim_C8 (fun l => l.sum) fsWitnessA fsWitnessB "a/d" "b/d").2
      (FsDir.ofList [("x", FsEntry.file [1]), ("y", FsEntry.file [2])])
      (FsDir.ofList [("y", FsEntry.file [2]), ("x", FsEntry.file [1])])
      rfl rfl (by decide) (by decide)⟩

/-!
Request construction (`BuildRequest.create`, `InstallRequest.create`,
`*.from_local_distribution`) and the download-result bucketing.  The
pipeline consumes the content fingerprinter through `env.fingerprint`, an
opaque deterministic function of the path (the filesystem is fixed for the
duration of one call; the content-determinism of the underlying function is
claim C8's subject).
-/

/-- `BuildRequest.create`: fingerprint the source path eagerly. -/
def BuildRequest.create (env : Env) (target : Target) (source_path : String) : BuildRequest :=
  { target := target, source_path := source_path, fingerprint := env.fingerprint source_path }

/-- `BuildRequest.from_local_distribution`: re-fingerprint the source and
fail with IntegrityError when a truthy pre-supplied fingerprint differs. -/
def BuildRequest.from_local_distribution (env : Env) (local_distribution : LocalDistribution) :
    Except PexError BuildRequest :=
  let request := BuildRequest.create env local_distribution.target local_distribution.path
  if local_distribution.fingerprint ≠ "" ∧ request.fingerprint ≠ local_distribution.fingerprint
  then
    Except.error (PexError.integrityError request.source_path local_distribution.fingerprint
      request.fingerprint)
  else Except.ok request

/-- `InstallRequest.create`: fingerprint the wheel path eagerly. -/
def InstallRequest.create (env : Env) (target : Target) (wheel_path : String) : InstallRequest :=
  { target := target, wheel_path := wheel_path, fingerprint := env.fingerprint wheel_path }

/-- `InstallRequest.wheel_file` property: the wheel's file name. -/
def InstallRequest.wheel_file (r : InstallRequest) : String := basename r.wheel_path

/-- `InstallRequest.from_local_distribution`: re-fingerprint the wheel and
fail with IntegrityError when a truthy pre-supplied fingerprint differs. -/
def InstallRequest.from_local_distribution (env : Env) (local_distribution : LocalDistribution) :
    Except PexError InstallRequest :=
  let request := InstallRequest.create env local_distribution.target local_distribution.path
  if local_distribution.fingerprint ≠ "" ∧ request.fingerprint ≠ local_distribution.fingerprint
  then
    Except.error (PexError.integrityError request.wheel_path local_distribution.fingerprint
      request.fingerprint)
  else Except.ok request

/-- C2. For every LocalDistribution carrying a (truthy) pre-supplied
fingerprint, constructing an InstallRequest or BuildRequest from it raises
IntegrityError exactly when the freshly computed fingerprint of the named
file differs from the pre-supplied one; when they agree, the constructed
request carries the freshly computed fingerprint.  Construction is a pure
function of the environment: no build or install job is involved. -/
theorem claim_C2 (env : Env) (ld : LocalDistribution) (hsupplied : ld.fingerprint ≠ "") :
    (env.fingerprint ld.path ≠ ld.fingerprint →
      InstallRequest.from_local_distribution env ld
          = Except.error (PexError.integrityError ld.path ld.fingerprint (env.fingerprint ld.path))
        ∧ BuildRequest.from_local_distribution env ld
          = Except.error (PexError.integrityError ld.path ld.fingerprint (env.fingerprint ld.path)))
    ∧ (env.fingerprint ld.path = ld.fingerprint →
      InstallRequest.from_local_distribution env ld
          = Except.ok (InstallRequest.mk ld.target ld.path (env.fingerprint ld.path))
        ∧ BuildRequest.from_local_distribution env ld
          = Except.ok (BuildRequest.mk ld.target ld.path (env.fingerprint ld.path))) :=
by
  constructor
  · intro hne
    constructor
    · simp only [InstallRequest.from_local_distribution, InstallRequest.create]
      rw [if_pos ⟨hsupplied, hne⟩]
    · simp only [BuildRequest.from_local_distribution, BuildRequest.create]
      rw [if_pos ⟨hsupplied, hne⟩]
  · intro heq
    constructor
    · simp only [InstallRequest.from_local_distribution, InstallRequest.create]
      rw [if_neg (by simp [heq])]
    · simp only [BuildRequest.from_local_distribution, BuildRequest.create]
      rw [if_neg (by simp [heq])]

/-- Environment used by concrete witnesses for the request-construction
claims: every oracle is a simple constant function. -/
def envW : Env :=
  { isfile := fun _ => true
    pathExists := fun _ => true
    listdir := fun _ => []
    fingerprint := fun _ => "freshfp"
    pythonTag := fun _ => "cp310"
    abiTag := fun _ => "cp310"
    platformTag := fun _ => "linux"
    isForeign := fun _ => false
    supportedTagsCompatible := fun _ _ => true
    wheelTags := fun _ => 0
    loadDist := fun _ => { project_name := "a", version := 1, requires_dists := [] }
    buildJob := fun _ => []
    installJob := fun _ => []
    pexRoot := "root"
    downloadsDest := "dl" }

/-- Witness for C2: a deliberately wrong pre-supplied fingerprint raises
IntegrityError, and the matching fingerprint constructs the request. -/
theorem claim_C2_witness :
    (InstallRequest.from_local_distribution envW
        { path := "w/pkg.whl", fingerprint := "stale", target := "t" }
      = Except.error (PexError.integrityError "w/pkg.whl" "stale" "freshfp"))
    ∧ (InstallRequest.from_local_distribution envW
        { path := "w/pkg.whl", fingerprint := "freshfp", target := "t" }
      = Except.ok (InstallRequest.mk "t" "w/pkg.whl" "freshfp")) :=
  ⟨((claim_C2 envW { path := "w/pkg.whl", fingerprint := "stale", target := "t" }
      (by decide)).1 (by decide)).1,
   ((claim_C2 envW { path := "w/pkg.whl", fingerprint := "freshfp", target := "t" }
      (by decide)).2 (by decide)).1⟩

/-- `DownloadResult._is_wheel`: a regular file whose path ends in .whl. -/
def DownloadResult._is_wheel (env : Env) (path : String) : Bool :=
  env.isfile path && strEndsWith path ".whl"

/-- DownloadResult: one resolution oracle invocation's output directory. -/
structure DownloadResult where
  target : Target
  download_dir : String

/-- `DownloadResult._iter_distribution_paths`: the download directory's
entries joined onto it (empty when the directory does not exist). -/
def DownloadResult._iter_distribution_paths (env : Env) (r : DownloadResult) : List String :=
  if env.pathExists r.download_dir then
    (env.listdir r.download_dir).map (fun distribution => pjoin r.download_dir distribution)
  else []

/-- `DownloadResult.build_requests`: every non-wheel entry becomes a
BuildRequest. -/
def DownloadResult.build_requests (env : Env) (r : DownloadResult) : List BuildRequest :=
  ((DownloadResult._iter_distribution_paths env r).filter
    (fun p => !(DownloadResult._is_wheel env p))).map (BuildRequest.create env r.target)

/-- `DownloadResult.install_requests`: every wheel entry becomes an
InstallRequest. -/
def DownloadResult.install_requests (env : Env) (r : DownloadResult) : List InstallRequest :=
  ((DownloadResult._iter_distribution_paths env r).filter
    (fun p => DownloadResult._is_wheel env p)).map (InstallRequest.create env r.target)

/-- C5. The entries of a download directory are partitioned into exactly
two buckets: wheels yield exactly one InstallRequest each, every other
entry exactly one BuildRequest, nothing is dropped and nothing lands in
both buckets, so the two request lists together cover the directory
listing exactly once (as a permutation of it). -/
theorem claim_C5 (env : Env) (r : DownloadResult) :
    ((DownloadResult.install_requests env r).map (fun q => q.wheel_path)
      ++ (DownloadResult.build_requests env r).map (fun q => q.source_path)).Perm
        (DownloadResult._iter_distribution_paths env r)
    ∧ (∀ q ∈ DownloadResult.install_requests env r,
        DownloadResult._is_wheel env q.wheel_path = true)
    ∧ (∀ q ∈ DownloadResult.build_requests env r,
        DownloadResult._is_wheel env q.source_path = false)
    ∧ (DownloadResult.install_requests env r).length
        + (DownloadResult.build_requests env r).length
      = (DownloadResult._iter_distribution_paths env r).length :=
by
  have hwp : ∀ (l : List String),
      (l.map (InstallRequest.create env r.target)).map (fun q => q.wheel_path) = l := by
    intro l
    induction l with
    | nil => rfl
    | cons a tl ih => simp [InstallRequest.create, ih]
  have hsp : ∀ (l : List String),
      (l.map (BuildRequest.create env r.target)).map (fun q => q.source_path) = l := by
    intro l
    induction l with
    | nil => rfl
    | cons a tl ih => simp [BuildRequest.create, ih]
  have hinst : (DownloadResult.install_requests env r).map (fun q => q.wheel_path)
      = (DownloadResult._iter_distribution_paths env r).filter
          (fun p => DownloadResult._is_wheel env p) := by
    unfold DownloadResult.install_requests
    exact hwp _
  have hbuild : (DownloadResult.build_requests env r).map (fun q => q.source_path)
      = (DownloadResult._iter_distribution_paths env r).filter
          (fun p => !(DownloadResult._is_wheel env p)) := by
    unfold DownloadResult.build_requests
    exact hsp _
  have hperm : ((DownloadResult.install_requests env r).map (fun q => q.wheel_path)
      ++ (DownloadResult.build_requests env r).map (fun q => q.source_path)).Perm
        (DownloadResult._iter_distribution_paths env r) := by
    rw [hinst, hbuild]
    exact List.filter_append_perm _ _
  refine ⟨hperm, ?_, ?_, ?_⟩
  · intro q hq
    simp only [DownloadResult.install_requests, List.mem_map] at hq
    obtain ⟨p, hp, rfl⟩ := hq
    have := List.of_mem_filter hp
    simpa [InstallRequest.create] using this
  · intro q hq
    simp only [DownloadResult.build_requests, List.mem_map] at hq
    obtain ⟨p, hp, rfl⟩ := hq
    have := List.of_mem_filter hp
    simp only [Bool.not_eq_true'] at this
    simpa [BuildRequest.create] using this
  · have := hperm.length_eq
    simpa using this

/-!
BuildResult and `finalize_build` (claims C3 and C4).
-/

/-- BuildResult: a build request plus the canonical cache directory its
artifact is promoted to. -/
structure BuildResult where
  request : BuildRequest
  dist_dir : String

/-- `BuildResult.from_request`: the cache slot is keyed by source kind
(sdists vs local_projects), source basename, source fingerprint, and the
target's python/abi/platform tags. -/
def BuildResult.from_request (env : Env) (build_request : BuildRequest) (dist_root : String) :
    BuildResult :=
  let dist_type := if env.isfile build_request.source_path then "sdists" else "local_projects"
  let target_tags := env.pythonTag build_request.target ++ "-" ++ env.abiTag build_request.target
    ++ "-" ++ env.platformTag build_request.target
  { request := build_request
    dist_dir := pjoin (pjoin (pjoin (pjoin dist_root dist_type)
      (basename build_request.source_path)) build_request.fingerprint) target_tags }

/-- `BuildRequest.result`. -/
def BuildRequest.result (env : Env) (r : BuildRequest) (dist_root : String) : BuildResult :=
  BuildResult.from_request env r dist_root

/-- `BuildResult.is_built`: the cache slot is already finalized. -/
def BuildResult.is_built (σ : CacheState) (r : BuildResult) : Bool :=
  isFinalized σ r.dist_dir

/-- Helper for `str.split` on a single character. -/
def splitOnCharAux (sep : Char) : List Char → List Char → List String
  | [], acc => [String.mk acc]
  | c :: rest, acc =>
      if c = sep then String.mk acc :: splitOnCharAux sep rest []
      else splitOnCharAux sep rest (acc ++ [c])

/-- Split a string on a separator character. -/
def splitOnChar (sep : Char) (s : String) : List String :=
  splitOnCharAux sep s.data []

/-- `ProjectNameAndVersion.from_filename` (pex.dist_metadata): the project
name and version are the first two dash-separated components of the wheel
file name. -/
def ProjectNameAndVersion.from_filename (wheel_path : String) : String × String :=
  match splitOnChar (Char.ofNat 45) (basename wheel_path) with
  | project :: version :: _ => (project, version)
  | _ => ("", "")

/-- The `glob(dist_dir/*.whl)` of a build result's finalized cache slot. -/
def builtWheels (σ : CacheState) (r : BuildResult) : List String :=
  ((finalContents σ r.dist_dir).filter (fun n => strEndsWith n ".whl")).map (pjoin r.dist_dir)

/-- The post-promotion checks of `finalize_build` over the finalized cache
state: require exactly one wheel in the slot (AssertionError otherwise); for
a foreign target additionally require the wheel's tags to be compatible with
the target's supported tag set (ValueError naming the sdist otherwise);
return the single wheel's InstallRequest. -/
def buildOutcome (env : Env) (σf : CacheState) (r : BuildResult) :
    Except PexError InstallRequest :=
  match builtWheels σf r with
  | [wheel_path] =>
      if env.isForeign r.request.target then
        if !(env.supportedTagsCompatible r.request.target (env.wheelTags wheel_path)) then
          let pv := ProjectNameAndVersion.from_filename wheel_path
          Except.error (PexError.noPrebuiltWheelForeign pv.1 pv.2 (basename wheel_path)
            (basename r.request.source_path) r.request.target)
        else Except.ok (InstallRequest.create env r.request.target wheel_path)
      else Except.ok (InstallRequest.create env r.request.target wheel_path)
  | wheels => Except.error (PexError.buildWrongArtifactCount r.request.source_path wheels.length
      wheels)

/-- `BuildResult.finalize_build`: promote the work directory (whose file
listing is `workContents`) to the canonical cache slot, then run the
post-promotion checks over the finalized slot. -/
def BuildResult.finalize_build (env : Env) (σ : CacheState) (r : BuildResult)
    (workContents : List String) : CacheState × Except PexError InstallRequest :=
  let σ₁ := finalizeDir σ r.dist_dir workContents
  (σ₁, buildOutcome env σ₁ r)

/-- Does an except value carry the IntegrityError exception class? -/
def isIntegrityErr {α : Type} : Except PexError α → Bool
  | Except.error (PexError.integrityError ..) => true
  | _ => false

/-- The rendered message of the foreign-target ValueError, as formatted at
the raise site (other errors render as their class name). -/
def PexError.render : PexError → String
  | PexError.noPrebuiltWheelForeign project version wheel sdist target =>
      ("No pre-built wheel was available for " ++ project ++ " " ++ version ++ ".\n"
        ++ "Successfully built the wheel " ++ wheel ++ " from the sdist ")
      ++ sdist
      ++ (" but it is not compatible with the requested foreign target " ++ target ++ ".\n"
        ++ "You will need to build a wheel from " ++ sdist
        ++ " on the foreign target platform and make it available to Pex via a --find-links"
        ++ " repo or a custom --index.")
  | e => e.pyClass

/-- C3 counterexample input: a build request for a concrete sdist. -/
def reqCE3 : BuildRequest := BuildRequest.create envW "t" "src/pkg.tar.gz"

/-- C3 counterexample input: its build result under the built_wheels root. -/
def brCE3 : BuildResult := BuildResult.from_request envW reqCE3 "root/built_wheels"

/-- C3 counterexample input: a finalized cache slot holding two wheels. -/
def sigmaCE3 : CacheState := [(brCE3.dist_dir, ["a-1-x.whl", "b-2-x.whl"])]

/-- C3 is falsified as stated: a build whose cache slot holds two wheel
artifacts makes `finalize_build` raise, but the exception raised is an
AssertionError, not the IntegrityError the claim names. -/
theorem claim_C3_counterexample :
    isIntegrityErr (BuildResult.finalize_build envW sigmaCE3 brCE3 []).2 = false
    ∧ (BuildResult.finalize_build envW sigmaCE3 brCE3 []).2
        = Except.error (PexError.buildWrongArtifactCount "src/pkg.tar.gz" 2
            [pjoin brCE3.dist_dir "a-1-x.whl", pjoin brCE3.dist_dir "b-2-x.whl"])
    ∧ PexError.pyClass (PexError.buildWrongArtifactCount "src/pkg.tar.gz" 2
        [pjoin brCE3.dist_dir "a-1-x.whl", pjoin brCE3.dist_dir "b-2-x.whl"])
      = "AssertionError" :=
  ⟨rfl, rfl, rfl⟩

/-- C3 (amended: the artifact-count failure is a fatal AssertionError, not
an IntegrityError).  `finalize_build` raises the artifact-count
AssertionError exactly when the number of wheels in the finalized slot is
not one; a successful finalization implies the slot holds exactly the one
returned wheel; and a single wheel that passes (or is exempt from) the
foreign-target tag gate yields that wheel's InstallRequest. -/
theorem claim_C3 (env : Env) (σ : CacheState) (r : BuildResult) (w : List String) :
    ((∃ s n ws, (BuildResult.finalize_build env σ r w).2
        = Except.error (PexError.buildWrongArtifactCount s n ws))
      ↔ (builtWheels (finalizeDir σ r.dist_dir w) r).length ≠ 1)
    ∧ (∀ ir, (BuildResult.finalize_build env σ r w).2 = Except.ok ir →
        builtWheels (finalizeDir σ r.dist_dir w) r = [ir.wheel_path])
    ∧ (∀ wheel_path, builtWheels (finalizeDir σ r.dist_dir w) r = [wheel_path] →
        (env.isForeign r.request.target = false
          ∨ env.supportedTagsCompatible r.request.target (env.wheelTags wheel_path) = true) →
        (BuildResult.finalize_build env σ r w).2
          = Except.ok (InstallRequest.create env r.request.target wheel_path)) :=
by
  rcases hw : builtWheels (finalizeDir σ r.dist_dir w) r with _ | ⟨wp, rest⟩
  · refine ⟨⟨fun _ => by simp, fun _ => ?_⟩, fun ir hir => ?_, fun wheel_path hwp => ?_⟩
    · exact ⟨r.request.source_path, 0, [], by simp [BuildResult.finalize_build, buildOutcome, hw]⟩
    · simp [BuildResult.finalize_build, buildOutcome, hw] at hir
    · simp at hwp
  · rcases rest with _ | ⟨wp2, rest2⟩
    · refine ⟨⟨fun hex => ?_, fun hlen => by simp at hlen⟩, fun ir hir => ?_,
        fun wheel_path hwp hgate => ?_⟩
      · obtain ⟨s, n, ws, hir⟩ := hex
        by_cases hf : env.isForeign r.request.target
        · by_cases hc : env.supportedTagsCompatible r.request.target (env.wheelTags wp)
          · simp [BuildResult.finalize_build, buildOutcome, hw, hf, hc] at hir
          · simp [BuildResult.finalize_build, buildOutcome, hw, hf, hc] at hir
        · simp [BuildResult.finalize_build, buildOutcome, hw, hf] at hir
      · by_cases hf : env.isForeign r.request.target
        · by_cases hc : env.supportedTagsCompatible r.request.target (env.wheelTags wp)
          · simp [BuildResult.finalize_build, buildOutcome, hw, hf, hc] at hir
            rw [← hir]
            rfl
          · simp [BuildResult.finalize_build, buildOutcome, hw, hf, hc] at hir
        · simp [BuildResult.finalize_build, buildOutcome, hw, hf] at hir
          rw [← hir]
          rfl
      · injection hwp with h1 _
        subst h1
        rcases hgate with hf | hc
        · simp [BuildResult.finalize_build, buildOutcome, hw, hf]
        · by_cases hf2 : env.isForeign r.request.target
          · simp [BuildResult.finalize_build, buildOutcome, hw, hf2, hc]
          · simp [BuildResult.finalize_build, buildOutcome, hw, hf2]
    · refine ⟨⟨fun _ => by simp, fun _ => ?_⟩, fun ir hir => ?_, fun wheel_path hwp => ?_⟩
      · exact ⟨r.request.source_path, (wp :: wp2 :: rest2).length, wp :: wp2 :: rest2,
          by simp [BuildResult.finalize_build, buildOutcome, hw]⟩
      · simp [BuildResult.finalize_build, buildOutcome, hw] at hir
      · simp at hwp

/-- C3 witness input: a finalized cache slot holding exactly one wheel. -/
def sigmaW3 : CacheState := [(brCE3.dist_dir, ["ok-1.0-py3-none-any.whl"])]

/-- Witness for C3 at a concrete single-wheel build. -/
theorem claim_C3_witness :
    (BuildResult.finalize_build envW sigmaW3 brCE3 []).2
      = Except.ok (InstallRequest.create envW "t"
          (pjoin brCE3.dist_dir "ok-1.0-py3-none-any.whl")) :=
  (claim_C3 envW sigmaW3 brCE3 []).2.2
    (pjoin brCE3.dist_dir "ok-1.0-py3-none-any.whl") (by decide) (Or.inl (by decide))

/-- C4 counterexample environment: a foreign target whose supported tag set
is incompatible with everything. -/
def envCE4 : Env :=
  { envW with isForeign := fun _ => true, supportedTagsCompatible := fun _ _ => false }

/-- C4 counterexample input: a build request for a concrete sdist. -/
def reqCE4 : BuildRequest := BuildRequest.create envCE4 "t" "src/proj-1.0.tar.gz"

/-- C4 counterexample input: its build result. -/
def brCE4 : BuildResult := BuildResult.from_request envCE4 reqCE4 "root/built_wheels"

/-- C4 counterexample input: a finalized slot holding one built wheel. -/
def sigmaCE4 : CacheState := [(brCE4.dist_dir, ["proj-1.0-py3-none-any.whl"])]

/-- C4 is falsified as stated: the foreign-target tag mismatch raises, but
the exception raised is a ValueError, not the repository's Untranslatable
class (pex.resolve.resolvers.Untranslatable) that the claim names. -/
theorem claim_C4_counterexample :
    (BuildResult.finalize_build envCE4 sigmaCE4 brCE4 []).2
        = Except.error (PexError.noPrebuiltWheelForeign "proj" "1.0"
            "proj-1.0-py3-none-any.whl" "proj-1.0.tar.gz" "t")
    ∧ PexError.pyClass (PexError.noPrebuiltWheelForeign "proj" "1.0"
        "proj-1.0-py3-none-any.whl" "proj-1.0.tar.gz" "t") = "ValueError"
    ∧ "ValueError" ≠ "Untranslatable" :=
  ⟨rfl, rfl, by decide⟩

/-- C4 (amended: the error raised is a ValueError, the spec's
"Untranslatable" kind, not the repository's Untranslatable class).  For a
foreign target, a single built wheel with incompatible tags fails with the
no-pre-built-wheel error whose message names the source sdist's basename;
for a non-foreign target no tag check is performed: the wheel is accepted
regardless of the tag-compatibility oracle. -/
theorem claim_C4 (env : Env) (σ : CacheState) (r : BuildResult) (w : List String)
    (wheel_path : String)
    (hone : builtWheels (finalizeDir σ r.dist_dir w) r = [wheel_path]) :
    (env.isForeign r.request.target = true →
      env.supportedTagsCompatible r.request.target (env.wheelTags wheel_path) = false →
      (BuildResult.finalize_build env σ r w).2
        = Except.error (PexError.noPrebuiltWheelForeign
            (ProjectNameAndVersion.from_filename wheel_path).1
            (ProjectNameAndVersion.from_filename wheel_path).2
            (basename wheel_path) (basename r.request.source_path) r.request.target)
      ∧ (∃ s t, s ++ (basename r.request.source_path).data ++ t
          = (PexError.render (PexError.noPrebuiltWheelForeign
              (ProjectNameAndVersion.from_filename wheel_path).1
              (ProjectNameAndVersion.from_filename wheel_path).2
              (basename wheel_path) (basename r.request.source_path) r.request.target)).data))
    ∧ (env.isForeign r.request.target = false →
      (BuildResult.finalize_build env σ r w).2
        = Except.ok (InstallRequest.create env r.request.target wheel_path)) :=
by
  constructor
  · intro hf hc
    constructor
    · simp [BuildResult.finalize_build, buildOutcome, hone, hf, hc]
    · refine ⟨("No pre-built wheel was available for "
          ++ (ProjectNameAndVersion.from_filename wheel_path).1 ++ " "
          ++ (ProjectNameAndVersion.from_filename wheel_path).2 ++ ".\n"
          ++ "Successfully built the wheel " ++ basename wheel_path
          ++ " from the sdist ").data,
        (" but it is not compatible with the requested foreign target "
          ++ r.request.target ++ ".\n"
          ++ "You will need to build a wheel from " ++ basename r.request.source_path
          ++ " on the foreign target platform and make it available to Pex via a --find-links"
          ++ " repo or a custom --index.").data, ?_⟩
      simp only [PexError.render, String.data_append]
  · intro hf
    simp [BuildResult.finalize_build, buildOutcome, hone, hf]

/-- Witness for C4 at the concrete foreign-incompatible build, and at a
non-foreign build of the same slot. -/
theorem claim_C4_witness :
    ((BuildResult.finalize_build envCE4 sigmaCE4 brCE4 []).2
        = Except.error (PexError.noPrebuiltWheelForeign "proj" "1.0"
            "proj-1.0-py3-none-any.whl" "proj-1.0.tar.gz" "t")
      ∧ (∃ s t, s ++ ("proj-1.0.tar.gz").data ++ t
          = (PexError.render (PexError.noPrebuiltWheelForeign "proj" "1.0"
              "proj-1.0-py3-none-any.whl" "proj-1.0.tar.gz" "t")).data)) :=
by
  have h := (claim_C4 envCE4 sigmaCE4 brCE4 []
    (pjoin brCE4.dist_dir "proj-1.0-py3-none-any.whl") (by decide)).1 rfl rfl
  exact h

/-!
The Build stage (`WheelBuilder`), claim C6.
-/

/-- `OrderedSet.add`: append the element when it is not already present. -/
def orderedSetAdd {α : Type} [DecidableEq α] (s : List α) (a : α) : List α :=
  if a ∈ s then s else s ++ [a]

/-- The per-source grouping of finalized install requests
(`DefaultDict[str, OrderedSet[InstallRequest]]`), in insertion order. -/
abbrev BuildResultsMap := List (String × List InstallRequest)

/-- `build_results[source_path].add(install_request)` on the defaultdict. -/
def mapAdd (m : BuildResultsMap) (key : String) (ir : InstallRequest) : BuildResultsMap :=
  match m with
  | [] => [(key, [ir])]
  | (k, s) :: rest =>
      if k = key then (k, orderedSetAdd s ir) :: rest else (k, s) :: mapAdd rest key ir

/-- `WheelBuilder._categorize_build_requests`: partition the requests into
the unsatisfied ones (cache slot not finalized: to be built) and, for the
already-built ones, the finalize_build result grouped under the source
path.  `acc` carries the (unsatisfied, build_results) accumulators in
iteration order. -/
def WheelBuilder._categorize_build_requests (env : Env) (σ : CacheState) (dist_root : String) :
    List BuildRequest → List BuildRequest × BuildResultsMap →
    Except PexError (List BuildRequest × BuildResultsMap)
  | [], acc => Except.ok acc
  | build_request :: rest, acc =>
      let build_result := BuildRequest.result env build_request dist_root
      if BuildResult.is_built σ build_result then
        match (BuildResult.finalize_build env σ build_result []).2 with
        | Except.error e => Except.error e
        | Except.ok ir =>
            WheelBuilder._categorize_build_requests env σ dist_root rest
              (acc.1, mapAdd acc.2 build_request.source_path ir)
      else
        WheelBuilder._categorize_build_requests env σ dist_root rest
          (acc.1 ++ [build_request], acc.2)

/-- The spawn-and-finalize loop of `build_wheels`: each unsatisfied request
runs its external build job (writing `env.buildJob request` into its work
directory), is finalized, and its install request is grouped under its
source path; the cache state threads through. -/
def buildFinalizeLoop (env : Env) (dist_root : String) :
    List BuildRequest → CacheState → BuildResultsMap →
    Except PexError (CacheState × BuildResultsMap)
  | [], σ, m => Except.ok (σ, m)
  | build_request :: rest, σ, m =>
      let build_result := BuildRequest.result env build_request dist_root
      match BuildResult.finalize_build env σ build_result (env.buildJob build_request) with
      | (_, Except.error e) => Except.error e
      | (σ₁, Except.ok ir) =>
          buildFinalizeLoop env dist_root rest σ₁ (mapAdd m build_request.source_path ir)

/-- `WheelBuilder.build_wheels`: nothing to do on an empty request list;
otherwise categorize against the built_wheels cache root, spawn one
external build job per unsatisfied request, and finalize each.  The first
component is the list of requests for which an external build job was
spawned. -/
def WheelBuilder.build_wheels (env : Env) (σ : CacheState) (build_requests : List BuildRequest) :
    List BuildRequest × Except PexError (CacheState × BuildResultsMap) :=
  if build_requests.isEmpty then ([], Except.ok (σ, []))
  else
    let built_wheels_dir := pjoin env.pexRoot "built_wheels"
    match WheelBuilder._categorize_build_requests env σ built_wheels_dir build_requests ([], [])
    with
    | Except.error e => ([], Except.error e)
    | Except.ok (unsatisfied, build_results) =>
        (unsatisfied, buildFinalizeLoop env built_wheels_dir unsatisfied σ build_results)

/-- A finalize of an already-finalized canonical directory is a no-op. -/
theorem finalizeDir_of_finalized (σ : CacheState) (dir : String) (w : List String)
    (h : isFinalized σ dir = true) : finalizeDir σ dir w = σ := by
  simp [finalizeDir, h]

/-- A freshly finalized directory is finalized. -/
theorem isFinalized_finalizeDir_self (σ : CacheState) (dir : String) (w : List String) :
    isFinalized (finalizeDir σ dir w) dir = true := by
  by_cases h : isFinalized σ dir = true
  · rw [finalizeDir_of_finalized σ dir w h]
    exact h
  · have hcons : finalizeDir σ dir w = (dir, w) :: σ := by simp [finalizeDir, h]
    rw [hcons]
    simp [isFinalized, List.lookup]

/-- The cache state returned by `finalize_build` is the promoted slot. -/
theorem finalize_build_fst (env : Env) (σ : CacheState) (r : BuildResult) (w : List String) :
    (BuildResult.finalize_build env σ r w).1 = finalizeDir σ r.dist_dir w := rfl

/-- The outcome returned by `finalize_build` is the post-promotion checks
over the promoted slot. -/
theorem finalize_build_snd (env : Env) (σ : CacheState) (r : BuildResult) (w : List String) :
    (BuildResult.finalize_build env σ r w).2
      = buildOutcome env (finalizeDir σ r.dist_dir w) r := rfl

/-- Evaluation of `build_wheels` on one already-cached request: no job is
spawned, the cache is unchanged, and the result is the cached slot's
`finalize_build` outcome grouped under the source path. -/
theorem build_wheels_single_cached (env : Env) (σ : CacheState) (req : BuildRequest)
    (hb : BuildResult.is_built σ
      (BuildRequest.result env req (pjoin env.pexRoot "built_wheels")) = true) :
    WheelBuilder.build_wheels env σ [req]
      = ([], Except.map (fun ir => (σ, [(req.source_path, [ir])]))
          ((BuildResult.finalize_build env σ
            (BuildRequest.result env req (pjoin env.pexRoot "built_wheels")) []).2)) := by
  rcases hfin : (BuildResult.finalize_build env σ
      (BuildRequest.result env req (pjoin env.pexRoot "built_wheels")) []).2 with e | ir
  · simp [WheelBuilder.build_wheels, WheelBuilder._categorize_build_requests, hb, hfin,
      Except.map]
  · simp [WheelBuilder.build_wheels, WheelBuilder._categorize_build_requests, hb, hfin,
      Except.map, buildFinalizeLoop, mapAdd]

/-- Evaluation of `build_wheels` on one uncached request: the request's
external build job is spawned, its output is promoted into the cache, and
the result is the promoted slot's `finalize_build` outcome grouped under
the source path. -/
theorem build_wheels_single_uncached (env : Env) (σ : CacheState) (req : BuildRequest)
    (hb : BuildResult.is_built σ
      (BuildRequest.result env req (pjoin env.pexRoot "built_wheels")) = false) :
    WheelBuilder.build_wheels env σ [req]
      = ([req],
          match BuildResult.finalize_build env σ
            (BuildRequest.result env req (pjoin env.pexRoot "built_wheels"))
            (env.buildJob req) with
          | (_, Except.error e) => Except.error e
          | (σw, Except.ok ir) => Except.ok (σw, [(req.source_path, [ir])])) := by
  rcases hfin : BuildResult.finalize_build env σ
      (BuildRequest.result env req (pjoin env.pexRoot "built_wheels"))
      (env.buildJob req) with ⟨σw, res⟩
  rcases res with e | ir
  · simp [WheelBuilder.build_wheels, WheelBuilder._categorize_build_requests, hb, hfin,
      buildFinalizeLoop]
  · simp [WheelBuilder.build_wheels, WheelBuilder._categorize_build_requests, hb, hfin,
      buildFinalizeLoop, mapAdd]

/-- C6.  Build-stage caching is idempotent.  If a run of `build_wheels` on
a single request succeeds, then: running it again against the resulting
cache state spawns no external build job, leaves the cache unchanged, and
returns the identical result map (hence the same artifact path); the first
run spawned at most one job; and if the request's cache slot was already
finalized on entry, even the first run spawned no job, having observed
`is_built` and reused the cached `finalize_build` result. -/
theorem claim_C6 (env : Env) (σ σ₁ : CacheState) (req : BuildRequest)
    (spawned₁ : List BuildRequest) (m₁ : BuildResultsMap)
    (hrun : WheelBuilder.build_wheels env σ [req] = (spawned₁, Except.ok (σ₁, m₁))) :
    WheelBuilder.build_wheels env σ₁ [req] = ([], Except.ok (σ₁, m₁))
    ∧ spawned₁.length ≤ 1
    ∧ (BuildResult.is_built σ
          (BuildRequest.result env req (pjoin env.pexRoot "built_wheels")) = true →
        spawned₁ = []) := by
  by_cases hb : BuildResult.is_built σ
      (BuildRequest.result env req (pjoin env.pexRoot "built_wheels")) = true
  · rw [build_wheels_single_cached env σ req hb] at hrun
    rcases hfin : (BuildResult.finalize_build env σ
        (BuildRequest.result env req (pjoin env.pexRoot "built_wheels")) []).2 with e | ir
    · rw [hfin] at hrun
      simp [Except.map] at hrun
    · rw [hfin] at hrun
      simp only [Except.map, Prod.mk.injEq, Except.ok.injEq] at hrun
      obtain ⟨hsp, hσ, hm⟩ := hrun
      subst hsp hm
      subst hσ
      refine ⟨?_, by simp, fun _ => rfl⟩
      rw [build_wheels_single_cached env σ req hb, hfin]
      rfl
  · have hbf : BuildResult.is_built σ
        (BuildRequest.result env req (pjoin env.pexRoot "built_wheels")) = false := by
      simpa using hb
    rw [build_wheels_single_uncached env σ req hbf] at hrun
    rcases hfin : BuildResult.finalize_build env σ
        (BuildRequest.result env req (pjoin env.pexRoot "built_wheels"))
        (env.buildJob req) with ⟨σw, res⟩
    rw [hfin] at hrun
    rcases res with e | ir
    · simp at hrun
    · simp only [Prod.mk.injEq, Except.ok.injEq] at hrun
      obtain ⟨hsp, hσ, hm⟩ := hrun
      subst hsp hm
      subst hσ
      have hσw : σw = finalizeDir σ
          (BuildRequest.result env req (pjoin env.pexRoot "built_wheels")).dist_dir
          (env.buildJob req) := by
        have h1 := congrArg Prod.fst hfin
        rw [finalize_build_fst] at h1
        exact h1.symm
      have hbuilt : BuildResult.is_built σw
          (BuildRequest.result env req (pjoin env.pexRoot "built_wheels")) = true := by
        rw [BuildResult.is_built, hσw]
        exact isFinalized_finalizeDir_self σ _ _
      have hfin2 : (BuildResult.finalize_build env σw
          (BuildRequest.result env req (pjoin env.pexRoot "built_wheels")) []).2
            = Except.ok ir := by
        rw [finalize_build_snd,
          finalizeDir_of_finalized σw _ [] hbuilt]
        have h2 := congrArg Prod.snd hfin
        rw [finalize_build_snd, ← hσw] at h2
        exact h2
      refine ⟨?_, by simp, fun hcontra => absurd hcontra hb⟩
      rw [build_wheels_single_cached env σw req hbuilt, hfin2]
      rfl

/-- Environment for the C6 witness: the external build job writes exactly
one wheel. -/
def envW6 : Env := { envW with buildJob := fun _ => ["w-1.0-py3-none-any.whl"] }

/-- C6 witness request. -/
def reqW6 : BuildRequest := BuildRequest.create envW6 "t" "src/w.tar.gz"

/-- Witness for C6: a concrete successful run from an empty cache, to which
the theorem applies. -/
theorem claim_C6_witness :
    WheelBuilder.build_wheels envW6
        (WheelBuilder.build_wheels envW6 [] [reqW6]).2.toOption.get!.1 [reqW6]
      = ([], (WheelBuilder.build_wheels envW6 [] [reqW6]).2) := by
  have h := claim_C6 envW6 []
    (WheelBuilder.build_wheels envW6 [] [reqW6]).2.toOption.get!.1 reqW6 [reqW6]
    (WheelBuilder.build_wheels envW6 [] [reqW6]).2.toOption.get!.2 (by rfl)
  rw [h.1]
  rfl

/-!
The Install stage (claim C7): InstallResult, `finalize_install`, the
dedup-by-wheel-file grouping, and step 4 of `install_distributions`
(lines 822-858 of resolver.py).
-/

/-- InstallResult: an install request plus its canonical install chroot
(keyed by the wheel's content fingerprint and file name). -/
structure InstallResult where
  request : InstallRequest
  installation_root : String
  install_chroot : String
deriving DecidableEq

/-- `InstallResult.from_request`. -/
def InstallResult.from_request (install_request : InstallRequest) (installation_root : String) :
    InstallResult :=
  { request := install_request
    installation_root := installation_root
    install_chroot := pjoin (pjoin installation_root install_request.fingerprint)
      install_request.wheel_file }

/-- `InstallRequest.result`. -/
def InstallRequest.result (r : InstallRequest) (installation_root : String) : InstallResult :=
  InstallResult.from_request r installation_root

/-- `InstallResult.is_installed`: the chroot's cache slot is finalized. -/
def InstallResult.is_installed (σ : CacheState) (r : InstallResult) : Bool :=
  isFinalized σ r.install_chroot

/-- `InstallResult._iter_installed_distributions`: when installed, one
InstalledDistribution per attached install request, every one carrying the
distribution loaded from this result's single install chroot and the given
exploded-directory fingerprint. -/
def InstallResult._iter_installed_distributions (env : Env) (σ : CacheState) (r : InstallResult)
    (install_requests : List InstallRequest) (fingerprint : String) :
    List InstalledDistribution :=
  if InstallResult.is_installed σ r then
    install_requests.map (fun install_request =>
      { target := install_request.target
        fingerprinted_distribution :=
          { distribution := env.loadDist r.install_chroot, fingerprint := fingerprint } })
  else []

/-- `InstallResult.finalize_install`: promote the chroot (work contents
produced by the install job), add the secondary exploded-contents runtime
cache key (a slot holding the relative symlink named after the wheel file),
and yield the installed distributions for every attached request. -/
def InstallResult.finalize_install (env : Env) (σ : CacheState) (r : InstallResult)
    (workContents : List String) (install_requests : List InstallRequest) :
    CacheState × List InstalledDistribution :=
  let σ₁ := finalizeDir σ r.install_chroot workContents
  let wheel_dir_hash := env.fingerprint r.install_chroot
  let runtime_key_dir := pjoin r.installation_root wheel_dir_hash
  let σ₂ := finalizeDir σ₁ runtime_key_dir [r.request.wheel_file]
  (σ₂, InstallResult._iter_installed_distributions env σ₂ r install_requests wheel_dir_hash)

/-- `BuildAndInstallRequest._categorize_install_requests`: split the
requests into the unsatisfied ones (chroot not finalized) and the already
finalized ones' results, preserving order. -/
def BuildAndInstallRequest._categorize_install_requests (σ : CacheState)
    (installed_wheels_dir : String) :
    List InstallRequest → List InstallRequest × List InstallResult
  | [] => ([], [])
  | install_request :: rest =>
      let install_result := InstallRequest.result install_request installed_wheels_dir
      let acc := BuildAndInstallRequest._categorize_install_requests σ installed_wheels_dir rest
      if InstallResult.is_installed σ install_result then (acc.1, install_result :: acc.2)
      else (install_request :: acc.1, acc.2)

/-- `install_requests_by_wheel_file.setdefault(wheel_file, []).append(r)`
over the ordered grouping. -/
def groupAdd (m : List (String × List InstallRequest)) (r : InstallRequest) :
    List (String × List InstallRequest) :=
  match m with
  | [] => [(r.wheel_file, [r])]
  | (k, s) :: rest =>
      if k = r.wheel_file then (k, s ++ [r]) :: rest else (k, s) :: groupAdd rest r

/-- The OrderedDict of install requests grouped by wheel file name, keys in
first-occurrence order, members in request order. -/
def groupByWheelFile (reqs : List InstallRequest) : List (String × List InstallRequest) :=
  reqs.foldl groupAdd []

/-- `install_requests_by_wheel_file[wheel_file]`, the requests attached to
one representative's install result. -/
def attachedRequests (groups : List (String × List InstallRequest)) (wheel_file : String) :
    List InstallRequest :=
  (groups.lookup wheel_file).getD []

/-- The `add_installation` loop over the already-installed representatives:
each cached result is finalized (a no-op promote plus the runtime key) with
all of its attached requests. -/
def installCachedLoop (env : Env) (groups : List (String × List InstallRequest)) :
    List InstallResult → CacheState → CacheState × List InstalledDistribution
  | [], σ => (σ, [])
  | install_result :: rest, σ =>
      let step := InstallResult.finalize_install env σ install_result []
        (attachedRequests groups install_result.request.wheel_file)
      let next := installCachedLoop env groups rest step.1
      (next.1, step.2 ++ next.2)

/-- The spawn-and-finalize loop over the unsatisfied representatives: each
spawns its external install job (writing `env.installJob request` into the
work chroot) and is finalized with all of its attached requests. -/
def installSpawnLoop (env : Env) (groups : List (String × List InstallRequest))
    (installed_wheels_dir : String) :
    List InstallRequest → CacheState → CacheState × List InstalledDistribution
  | [], σ => (σ, [])
  | install_request :: rest, σ =>
      let install_result := InstallRequest.result install_request installed_wheels_dir
      let step := InstallResult.finalize_install env σ install_result
        (env.installJob install_request)
        (attachedRequests groups install_request.wheel_file)
      let next := installSpawnLoop env groups installed_wheels_dir rest step.1
      (next.1, step.2 ++ next.2)

/-- Step 4 of `install_distributions`: dedup the install requests by wheel
file name, take each group's first request as representative, categorize
the representatives against the install cache, attach every group member to
its representative's result, and install cached representatives by reuse
and the rest by one spawned install job each.  Returns the spawned
requests, the final cache state, and the installed distributions. -/
def installWheels (env : Env) (σ : CacheState) (installed_wheels_dir : String)
    (all_install_requests : List InstallRequest) :
    List InstallRequest × CacheState × List InstalledDistribution :=
  let groups := groupByWheelFile all_install_requests
  let representatives := groups.filterMap (fun g => g.2.head?)
  let cat := BuildAndInstallRequest._categorize_install_requests σ installed_wheels_dir
    representatives
  let cachedRun := installCachedLoop env groups cat.2 σ
  let spawnRun := installSpawnLoop env groups installed_wheels_dir cat.1 cachedRun.1
  (cat.1, spawnRun.1, cachedRun.2 ++ spawnRun.2)

/-- Finalizing any directory preserves already-finalized directories. -/
theorem isFinalized_mono (σ : CacheState) (d d2 : String) (w : List String)
    (h : isFinalized σ d = true) : isFinalized (finalizeDir σ d2 w) d = true := by
  by_cases h2 : isFinalized σ d2 = true
  · rwa [finalizeDir_of_finalized σ d2 w h2]
  · have hcons : finalizeDir σ d2 w = (d2, w) :: σ := by simp [finalizeDir, h2]
    rw [hcons]
    simp only [isFinalized, List.lookup] at h ⊢
    by_cases he : d == d2
    · simp [he]
    · simp only [he]
      exact h

/-- The InstalledDistribution a request receives from an install result
whose chroot is `chroot`, fingerprinted by `fp`. -/
def installedFor (env : Env) (chroot : String) (fp : String) (q : InstallRequest) :
    InstalledDistribution :=
  { target := q.target
    fingerprinted_distribution := { distribution := env.loadDist chroot, fingerprint := fp } }

/-- `finalize_install` always yields one installed distribution per
attached request, all loaded from the result's chroot. -/
theorem finalize_install_snd (env : Env) (σ : CacheState) (r : InstallResult)
    (w : List String) (att : List InstallRequest) :
    (InstallResult.finalize_install env σ r w att).2
      = att.map (installedFor env r.install_chroot (env.fingerprint r.install_chroot)) := by
  have hinst : InstallResult.is_installed
      (finalizeDir (finalizeDir σ r.install_chroot w)
        (pjoin r.installation_root (env.fingerprint r.install_chroot))
        [r.request.wheel_file]) r = true := by
    exact isFinalized_mono _ _ _ _ (isFinalized_finalizeDir_self σ r.install_chroot w)
  simp only [InstallResult.finalize_install, InstallResult._iter_installed_distributions, hinst,
    if_true]
  rfl

/-- `finalize_install` only adds cache entries. -/
theorem finalize_install_mono (env : Env) (σ : CacheState) (r : InstallResult)
    (w : List String) (att : List InstallRequest) (d : String)
    (h : isFinalized σ d = true) :
    isFinalized (InstallResult.finalize_install env σ r w att).1 d = true := by
  simp only [InstallResult.finalize_install]
  exact isFinalized_mono _ _ _ _ (isFinalized_mono _ _ _ _ h)

/-- The cached-representative loop yields exactly the attached requests'
installed distributions, grouped per representative in order. -/
theorem installCachedLoop_snd (env : Env) (groups : List (String × List InstallRequest)) :
    ∀ (results : List InstallResult) (σ : CacheState),
    (installCachedLoop env groups results σ).2
      = results.flatMap (fun res =>
          (attachedRequests groups res.request.wheel_file).map
            (installedFor env res.install_chroot (env.fingerprint res.install_chroot))) := by
  intro results
  induction results with
  | nil => intro σ; rfl
  | cons res rest ih =>
      intro σ
      simp only [installCachedLoop, List.flatMap_cons, finalize_install_snd, ih]

/-- The spawn loop yields exactly the attached requests' installed
distributions, grouped per spawned representative in order. -/
theorem installSpawnLoop_snd (env : Env) (groups : List (String × List InstallRequest))
    (root : String) :
    ∀ (reqs : List InstallRequest) (σ : CacheState),
    (installSpawnLoop env groups root reqs σ).2
      = reqs.flatMap (fun r =>
          (attachedRequests groups r.wheel_file).map
            (installedFor env (InstallRequest.result r root).install_chroot
              (env.fingerprint (InstallRequest.result r root).install_chroot))) := by
  intro reqs
  induction reqs with
  | nil => intro σ; rfl
  | cons r rest ih =>
      intro σ
      simp only [installSpawnLoop, List.flatMap_cons, finalize_install_snd, ih]

/-- `_categorize_install_requests` partitions the requests by
`is_installed`, preserving order. -/
theorem categorize_install_spec (σ : CacheState) (root : String)
    (reps : List InstallRequest) :
    BuildAndInstallRequest._categorize_install_requests σ root reps
      = (reps.filter (fun r => !(InstallResult.is_installed σ (InstallRequest.result r root))),
         (reps.filter (fun r => InstallResult.is_installed σ (InstallRequest.result r root))).map
           (fun r => InstallRequest.result r root)) := by
  induction reps with
  | nil => rfl
  | cons r rest ih =>
      by_cases h : InstallResult.is_installed σ (InstallRequest.result r root) = true
      · simp [BuildAndInstallRequest._categorize_install_requests, h, ih]
      · simp only [Bool.not_eq_true] at h
        simp [BuildAndInstallRequest._categorize_install_requests, h, ih]

/-- In an association list with distinct keys, membership determines the
lookup. -/
theorem lookup_of_mem_of_nodup_keys {β : Type} (m : List (String × β)) (k : String) (v : β)
    (hmem : (k, v) ∈ m) (hnd : (m.map Prod.fst).Nodup) : m.lookup k = some v := by
  induction m with
  | nil => cases hmem
  | cons g rest ih =>
      have hnd2 : (rest.map Prod.fst).Nodup := by
        simp only [List.map_cons] at hnd
        exact hnd.of_cons
      rcases List.mem_cons.mp hmem with heq | hmem2
      · subst heq
        simp [List.lookup]
      · have hk : k ≠ g.1 := by
          intro hkeq

          simp only [List.map_cons, List.nodup_cons] at hnd
          exact hnd.1 (hkeq ▸ List.mem_map.mpr ⟨(k, v), hmem2, rfl⟩)
        have hne : (k == g.1) = false := beq_eq_false_iff_ne.mpr hk
        rcases g with ⟨k1, v1⟩
        simp only [List.lookup] at hne ⊢
        simp only [hne]
        exact ih hmem2 hnd2

/-- The head of a filtered list is the first match. -/
theorem head?_filter_eq_find? {α : Type} (p : α → Bool) (l : List α) :
    (l.filter p).head? = l.find? p := by
  induction l with
  | nil => rfl
  | cons a rest ih =>
      by_cases h : p a = true
      · simp [List.filter, List.find?, h]
      · simp only [Bool.not_eq_true] at h
        simp [List.filter, List.find?, h, ih]

/-- Keys after a `groupAdd`: unchanged when the wheel file is already a
key, extended by it otherwise. -/
theorem groupAdd_keys (m : List (String × List InstallRequest)) (r : InstallRequest) :
    (groupAdd m r).map Prod.fst
      = if r.wheel_file ∈ m.map Prod.fst then m.map Prod.fst
        else m.map Prod.fst ++ [r.wheel_file] := by
  induction m with
  | nil => simp [groupAdd]
  | cons g rest ih =>
      rcases g with ⟨k, s⟩
      by_cases hk : k = r.wheel_file
      · subst hk
        simp [groupAdd]
      · simp only [groupAdd, if_neg hk, List.map_cons, ih]
        by_cases hmem : r.wheel_file ∈ rest.map Prod.fst
        · simp [hmem, Ne.symm hk]
        · simp [hmem, Ne.symm hk]

/-- Lookup after a `groupAdd`: the updated key gains the request at the end
of its member list, all other keys are untouched. -/
theorem groupAdd_lookup (m : List (String × List InstallRequest)) (r : InstallRequest)
    (w : String) :
    (groupAdd m r).lookup w
      = if w = r.wheel_file then some (((m.lookup w).getD []) ++ [r]) else m.lookup w := by
  induction m with
  | nil =>
      by_cases hw : w = r.wheel_file
      · subst hw
        simp [groupAdd, List.lookup]
      · simp [groupAdd, List.lookup, hw, beq_eq_false_iff_ne.mpr hw]
  | cons g rest ih =>
      rcases g with ⟨k, s⟩
      by_cases hk : k = r.wheel_file
      · by_cases hw : w = k
        · have hwf : w = r.wheel_file := hk ▸ hw
          simp [groupAdd, hk, List.lookup, hw, hwf]
        · have hwf : w ≠ r.wheel_file := fun hcontra => hw (hcontra.trans hk.symm)
          simp [groupAdd, hk, List.lookup, beq_eq_false_iff_ne.mpr hw,
            beq_eq_false_iff_ne.mpr hwf, hwf]
      · by_cases hw : w = k
        · have hwf : w ≠ r.wheel_file := fun hcontra => hk (hw.symm.trans hcontra)
          simp [groupAdd, hk, List.lookup, hw, hwf]
        · simp only [groupAdd, if_neg hk, List.lookup, beq_eq_false_iff_ne.mpr hw, ih]

/-- Flattening after a `groupAdd` is a permutation of the old flattening
with the new request appended. -/
theorem groupAdd_flatten_perm (m : List (String × List InstallRequest)) (r : InstallRequest) :
    ((groupAdd m r).flatMap (fun g => g.2)).Perm ((m.flatMap (fun g => g.2)) ++ [r]) := by
  induction m with
  | nil => simp [groupAdd]
  | cons g rest ih =>
      rcases g with ⟨k, s⟩
      by_cases hk : k = r.wheel_file
      · simp only [groupAdd, if_pos hk, List.flatMap_cons, List.append_assoc]
        exact (List.Perm.append_left s (List.perm_append_comm))
      · simp only [groupAdd, if_neg hk, List.flatMap_cons, List.append_assoc]
        exact List.Perm.append_left s ih

/-- The grouping's keys are exactly the wheel file names occurring among
the requests. -/
theorem groupBy_keys_mem (reqs : List InstallRequest) (w : String) :
    w ∈ (groupByWheelFile reqs).map Prod.fst ↔ w ∈ reqs.map (fun q => q.wheel_file) := by
  induction reqs using List.reverseRecOn with
  | nil => simp [groupByWheelFile]
  | append_singleton l r ih =>
      have hstep : groupByWheelFile (l ++ [r]) = groupAdd (groupByWheelFile l) r := by
        simp [groupByWheelFile, List.foldl_append]
      rw [hstep, groupAdd_keys]
      by_cases hmem : r.wheel_file ∈ (groupByWheelFile l).map Prod.fst
      · rw [if_pos hmem]
        simp only [List.map_append, List.map_cons, List.map_nil, List.mem_append,
          List.mem_singleton]
        constructor
        · intro h
          exact Or.inl (ih.mp h)
        · intro h
          rcases h with h | h
          · exact ih.mpr h
          · subst h
            exact hmem
      · rw [if_neg hmem]
        simp only [List.map_append, List.map_cons, List.map_nil, List.mem_append,
          List.mem_singleton, ih]

/-- The grouping's keys are distinct. -/
theorem groupBy_keys_nodup (reqs : List InstallRequest) :
    ((groupByWheelFile reqs).map Prod.fst).Nodup := by
  induction reqs using List.reverseRecOn with
  | nil => simp [groupByWheelFile]
  | append_singleton l r ih =>
      have hstep : groupByWheelFile (l ++ [r]) = groupAdd (groupByWheelFile l) r := by
        simp [groupByWheelFile, List.foldl_append]
      rw [hstep, groupAdd_keys]
      by_cases hmem : r.wheel_file ∈ (groupByWheelFile l).map Prod.fst
      · rw [if_pos hmem]
        exact ih
      · rw [if_neg hmem]
        rw [List.nodup_append]
        exact ⟨ih, List.nodup_singleton _, by simpa [List.disjoint_singleton] using hmem⟩

/-- The grouping's lookup returns exactly the requests bearing that wheel
file name, in order (and nothing for an absent name). -/
theorem groupBy_lookup (reqs : List InstallRequest) (w : String) :
    (groupByWheelFile reqs).lookup w
      = (if (reqs.filter (fun q => q.wheel_file == w)).isEmpty then none
         else some (reqs.filter (fun q => q.wheel_file == w))) := by
  induction reqs using List.reverseRecOn with
  | nil => simp [groupByWheelFile, List.lookup]
  | append_singleton l r ih =>
      have hstep : groupByWheelFile (l ++ [r]) = groupAdd (groupByWheelFile l) r := by
        simp [groupByWheelFile, List.foldl_append]
      rw [hstep, groupAdd_lookup]
      by_cases hw : w = r.wheel_file
      · subst hw
        rw [if_pos rfl, ih]
        have hfil : (l ++ [r]).filter (fun q => q.wheel_file == r.wheel_file)
            = l.filter (fun q => q.wheel_file == r.wheel_file) ++ [r] := by
          rw [List.filter_append]
          simp
        rw [hfil]
        by_cases hemp :
            (l.filter (fun q => q.wheel_file == r.wheel_file)).isEmpty = true
        · have hnil : l.filter (fun q => q.wheel_file == r.wheel_file) = [] := by
            simpa using hemp
          simp [hnil]
        · simp only [Bool.not_eq_true] at hemp
          simp [hemp]
      · rw [if_neg hw, ih]
        have hfil : (l ++ [r]).filter (fun q => q.wheel_file == w)
            = l.filter (fun q => q.wheel_file == w) := by
          rw [List.filter_append]
          simp [beq_eq_false_iff_ne.mpr (Ne.symm hw)]
        rw [hfil]

/-- The grouping's flattening is a permutation of the requests. -/
theorem groupBy_flatten_perm (reqs : List InstallRequest) :
    ((groupByWheelFile reqs).flatMap (fun g => g.2)).Perm reqs := by
  induction reqs using List.reverseRecOn with
  | nil => simp [groupByWheelFile]
  | append_singleton l r ih =>
      have hstep : groupByWheelFile (l ++ [r]) = groupAdd (groupByWheelFile l) r := by
        simp [groupByWheelFile, List.foldl_append]
      rw [hstep]
      exact (groupAdd_flatten_perm _ r).trans (ih.append_right [r])

/-- Members of the grouping: each group's member list is exactly the
requests bearing its key, in order, and is nonempty. -/
theorem groupBy_member_char (reqs : List InstallRequest) (g : String × List InstallRequest)
    (hg : g ∈ groupByWheelFile reqs) :
    g.2 = reqs.filter (fun q => q.wheel_file == g.1) ∧ g.2 ≠ [] := by
  have hlk : (groupByWheelFile reqs).lookup g.1 = some g.2 :=
    lookup_of_mem_of_nodup_keys _ _ _ hg (groupBy_keys_nodup reqs)
  rw [groupBy_lookup] at hlk
  by_cases hemp : (reqs.filter (fun q => q.wheel_file == g.1)).isEmpty = true
  · rw [if_pos hemp] at hlk
    cases hlk
  · rw [if_neg hemp] at hlk
    have heq : g.2 = reqs.filter (fun q => q.wheel_file == g.1) := (Option.some.inj hlk).symm
    refine ⟨heq, ?_⟩
    intro hnil
    rw [hnil] at heq
    rw [← heq] at hemp
    exact hemp rfl

/-- flatMap over a filterMap: contribute each mapped value's image, nothing
for a dropped element. -/
theorem flatMap_filterMap_getD {α β γ : Type} (f : α → Option β) (F : β → List γ) :
    ∀ (l : List α),
    (l.filterMap f).flatMap F = l.flatMap (fun a => ((f a).map F).getD []) := by
  intro l
  induction l with
  | nil => rfl
  | cons a rest ih =>
      rcases hf : f a with _ | b
      · simp [List.filterMap_cons, hf, ih]
      · simp [List.filterMap_cons, hf, ih]

/-- A filterMap that never drops preserves length. -/
theorem length_filterMap_of_isSome {α β : Type} (f : α → Option β) :
    ∀ (l : List α), (∀ a ∈ l, (f a).isSome = true) → (l.filterMap f).length = l.length := by
  intro l
  induction l with
  | nil => intro _; rfl
  | cons a rest ih =>
      intro h
      rcases hf : f a with _ | b
      · have := h a (List.mem_cons_self a rest)
        rw [hf] at this
        cases this
      · simp only [List.filterMap_cons, hf, List.length_cons]
        rw [ih (fun x hx => h x (List.mem_cons_of_mem a hx))]

/-- flatMap congruence over the members. -/
theorem flatMap_congr_left {α β : Type} (f g : α → List β) :
    ∀ (l : List α), (∀ a ∈ l, f a = g a) → l.flatMap f = l.flatMap g := by
  intro l
  induction l with
  | nil => intro _; rfl
  | cons a rest ih =>
      intro h
      simp only [List.flatMap_cons, h a (List.mem_cons_self a rest),
        ih (fun x hx => h x (List.mem_cons_of_mem a hx))]

/-- The representative installed for a request: the first request sharing
its wheel file name determines the install chroot. -/
def repFor (reqs : List InstallRequest) (r : InstallRequest) : InstallRequest :=
  ((reqs.filter (fun q => q.wheel_file == r.wheel_file)).head?).getD r

/-- The InstalledDistribution a request must come away with: its own
target, and the distribution and exploded-dir fingerprint of its
representative's single install chroot. -/
def expectedInstalled (env : Env) (root : String) (reqs : List InstallRequest)
    (r : InstallRequest) : InstalledDistribution :=
  installedFor env (InstallRequest.result (repFor reqs r) root).install_chroot
    (env.fingerprint (InstallRequest.result (repFor reqs r) root).install_chroot) r

/-- C7.  `install_distributions` dedups InstallRequests by wheel file
basename: the grouping's keys are distinct and are exactly the occurring
wheel file names; the representatives (one per distinct wheel file) are
the only requests installed, the spawned install jobs being exactly the
representatives whose chroot is not already cached; and the produced
installed distributions are, up to order, one per requesting
InstallRequest, each carrying its own target but the distribution and
fingerprint of its wheel file's single representative chroot. -/
theorem claim_C7 (env : Env) (σ : CacheState) (root : String) (reqs : List InstallRequest) :
    ((groupByWheelFile reqs).map Prod.fst).Nodup
    ∧ (∀ w, w ∈ (groupByWheelFile reqs).map Prod.fst ↔ w ∈ reqs.map (fun q => q.wheel_file))
    ∧ (installWheels env σ root reqs).1
        = ((groupByWheelFile reqs).filterMap (fun g => g.2.head?)).filter
            (fun r => !(InstallResult.is_installed σ (InstallRequest.result r root)))
    ∧ ((groupByWheelFile reqs).filterMap (fun g => g.2.head?)).length
        = (groupByWheelFile reqs).length
    ∧ ((installWheels env σ root reqs).2.2).Perm
        (reqs.map (expectedInstalled env root reqs)) := by
  refine ⟨groupBy_keys_nodup reqs, groupBy_keys_mem reqs, ?_, ?_, ?_⟩
  · simp [installWheels, categorize_install_spec]
  · refine length_filterMap_of_isSome _ _ ?_
    intro g hg
    have hchar := groupBy_member_char reqs g hg
    rcases hne : g.2 with _ | ⟨h, t⟩
    · exact absurd hne hchar.2
    · simp [hne]
  · -- the permutation of the produced installations
    have hout : (installWheels env σ root reqs).2.2
        = (((groupByWheelFile reqs).filterMap (fun g => g.2.head?)).filter
            (fun r => InstallResult.is_installed σ (InstallRequest.result r root))).flatMap
              (fun rep => (attachedRequests (groupByWheelFile reqs) rep.wheel_file).map
                (installedFor env (InstallRequest.result rep root).install_chroot
                  (env.fingerprint (InstallRequest.result rep root).install_chroot)))
          ++ (((groupByWheelFile reqs).filterMap (fun g => g.2.head?)).filter
            (fun r => !(InstallResult.is_installed σ (InstallRequest.result r root)))).flatMap
              (fun rep => (attachedRequests (groupByWheelFile reqs) rep.wheel_file).map
                (installedFor env (InstallRequest.result rep root).install_chroot
                  (env.fingerprint (InstallRequest.result rep root).install_chroot))) := by
      simp only [installWheels, categorize_install_spec, installCachedLoop_snd,
        installSpawnLoop_snd, List.flatMap_map]
      rfl
    rw [hout, ← List.flatMap_append]
    have hperm1 := List.filter_append_perm
      (fun r => InstallResult.is_installed σ (InstallRequest.result r root))
      ((groupByWheelFile reqs).filterMap (fun g => g.2.head?))
    refine (List.Perm.flatMap_right _ hperm1).trans ?_
    rw [flatMap_filterMap_getD]
    have hpt : ∀ g ∈ groupByWheelFile reqs,
        ((g.2.head?).map (fun rep =>
            (attachedRequests (groupByWheelFile reqs) rep.wheel_file).map
              (installedFor env (InstallRequest.result rep root).install_chroot
                (env.fingerprint (InstallRequest.result rep root).install_chroot)))).getD []
          = g.2.map (expectedInstalled env root reqs) := by
      intro g hg
      have hchar := groupBy_member_char reqs g hg
      rcases hne : g.2 with _ | ⟨h, t⟩
      · exact absurd hne hchar.2
      · have hwfh : h.wheel_file = g.1 := by
          have hmemh : h ∈ g.2 := by
            rw [hne]
            exact List.mem_cons_self h t
          have hmf : h ∈ reqs.filter (fun q => q.wheel_file == g.1) := hchar.1 ▸ hmemh
          exact eq_of_beq (List.mem_filter.mp hmf).2
        have hatt : attachedRequests (groupByWheelFile reqs) g.1 = g.2 := by
          unfold attachedRequests
          rw [lookup_of_mem_of_nodup_keys _ _ _ hg (groupBy_keys_nodup reqs)]
          rfl
        show (attachedRequests (groupByWheelFile reqs) h.wheel_file).map
            (installedFor env (InstallRequest.result h root).install_chroot
              (env.fingerprint (InstallRequest.result h root).install_chroot))
          = (h :: t).map (expectedInstalled env root reqs)
        rw [hwfh, hatt, hne]
        refine List.map_congr_left ?_
        intro q hq
        have hq2 : q ∈ reqs.filter (fun p => p.wheel_file == g.1) := by
          rw [← hne] at hq
          exact hchar.1 ▸ hq
        have hwfq : q.wheel_file = g.1 := eq_of_beq (List.mem_filter.mp hq2).2
        have hrep : repFor reqs q = h := by
          unfold repFor
          rw [hwfq, ← hchar.1, hne]
          rfl
        unfold expectedInstalled
        rw [hrep]
    rw [flatMap_congr_left _ _ _ hpt]
    have hswap : (groupByWheelFile reqs).flatMap
        (fun g => g.2.map (expectedInstalled env root reqs))
        = ((groupByWheelFile reqs).flatMap (fun g => g.2)).map
            (expectedInstalled env root reqs) := by
      rw [List.map_flatMap]
    rw [hswap]
    exact List.Perm.map _ (groupBy_flatten_perm reqs)

/-!
The global consistency check `_check_install` (claim C1).
-/

/-- One insertion into the per-project-name OrderedDict: a duplicate key
keeps its original position but takes the new value, a new key is appended.
-/
def odInsert (m : List (ProjectName × InstalledDistribution)) (k : ProjectName)
    (v : InstalledDistribution) : List (ProjectName × InstalledDistribution) :=
  match m with
  | [] => [(k, v)]
  | (k1, v1) :: rest => if k1 = k then (k1, v) :: rest else (k1, v1) :: odInsert rest k v

/-- `installed_distribution_by_project_name`: the OrderedDict built from
the (project name, installed distribution) pairs. -/
def installedByProjectName (installed : List InstalledDistribution) :
    List (ProjectName × InstalledDistribution) :=
  installed.foldl (fun m d => odInsert m d.distribution.project_name d) []

/-- The failures one checked distribution contributes: for each of its
target-applicable runtime requirements, a missing failure when no entry of
the by-name map matches, a version-mismatch failure when the matching entry
does not satisfy the specifier. -/
def violationsOf (byName : List (ProjectName × InstalledDistribution))
    (idist : InstalledDistribution) : List Violation :=
  (idist.distribution.requires).filterMap (fun requirement =>
    if !(idist.target.requirement_applies requirement) then none
    else
      match byName.lookup requirement.project_name with
      | none => some (Violation.missing
          (idist.distribution.project_name, idist.distribution.version) requirement)
      | some installed_requirement_dist =>
          if !(requirement.specifier_contains
              installed_requirement_dist.distribution.version) then
            some (Violation.versionMismatch
              (idist.distribution.project_name, idist.distribution.version) requirement
              (installed_requirement_dist.distribution.project_name,
               installed_requirement_dist.distribution.version))
          else none)

/-- `BuildAndInstallRequest._check_install`: collect every failure across
the by-name deduplicated installed set, and raise one aggregated
Unsatisfiable carrying them all (never only the first). -/
def BuildAndInstallRequest._check_install (installed : List InstalledDistribution) :
    Option PexError :=
  let byName := installedByProjectName installed
  let unsatisfied := byName.flatMap (fun kv => violationsOf byName kv.2)
  if unsatisfied.isEmpty then none else some (PexError.unsatisfiedCheck unsatisfied)

/-- Written from the claim's words: some installed distribution has a
target-applicable runtime requirement for which no installed distribution
has a matching project name and a satisfying version. -/
def specViolationExists (installed : List InstalledDistribution) : Prop :=
  ∃ d ∈ installed, ∃ r ∈ d.distribution.requires,
    d.target.requirement_applies r = true
    ∧ ¬ ∃ d2 ∈ installed, d2.distribution.project_name = r.project_name
        ∧ r.specifier_contains d2.distribution.version = true

instance specViolationExists.instDecidable (installed : List InstalledDistribution) :
    Decidable (specViolationExists installed) := by
  unfold specViolationExists
  infer_instance

/-- Written from the claim's words: the full enumeration of violations
across the whole installed set, resolving each requirement against the
installed list itself. -/
def specViolations (installed : List InstalledDistribution) : List Violation :=
  installed.flatMap (fun d =>
    d.distribution.requires.filterMap (fun r =>
      if !(d.target.requirement_applies r) then none
      else
        match installed.find?
            (fun d2 => d2.distribution.project_name == r.project_name) with
        | none => some (Violation.missing
            (d.distribution.project_name, d.distribution.version) r)
        | some d2 =>
            if !(r.specifier_contains d2.distribution.version) then
              some (Violation.versionMismatch
                (d.distribution.project_name, d.distribution.version) r
                (d2.distribution.project_name, d2.distribution.version))
            else none))

/-- C1 counterexample inputs: two installed distributions sharing the
project name p; the first requires the absent project q, the second has no
requirements. -/
def reqQ : Requirement :=
  { project_name := "q", url := none, specifier := [1], marker_targets := none }

/-- First installed distribution of the C1 counterexample. -/
def instPA : InstalledDistribution :=
  { target := "t"
    fingerprinted_distribution :=
      { distribution := { project_name := "p", version := 1, requires_dists := [reqQ] }
        fingerprint := "f1" } }

/-- Second installed distribution of the C1 counterexample. -/
def instPB : InstalledDistribution :=
  { target := "t"
    fingerprinted_distribution :=
      { distribution := { project_name := "p", version := 2, requires_dists := [] }
        fingerprint := "f2" } }

/-- C1 is falsified as stated: the by-project-name OrderedDict keeps only
one distribution per name, so with two installed distributions named p the
first one's unmet requirement on q is never checked — the spec's violation
exists yet no Unsatisfiable is raised. -/
theorem claim_C1_counterexample :
    BuildAndInstallRequest._check_install [instPA, instPB] = none
    ∧ specViolationExists [instPA, instPB] :=
  ⟨rfl, by decide⟩

/-- filterMap congruence over the members. -/
theorem filterMap_congr_left {α β : Type} (f g : α → Option β) :
    ∀ (l : List α), (∀ a ∈ l, f a = g a) → l.filterMap f = l.filterMap g := by
  intro l
  induction l with
  | nil => intro _; rfl
  | cons a rest ih =>
      intro h
      simp only [List.filterMap_cons, h a (List.mem_cons_self a rest),
        ih (fun x hx => h x (List.mem_cons_of_mem a hx))]

/-- Inserting a fresh key appends it. -/
theorem odInsert_not_mem (m : List (ProjectName × InstalledDistribution)) (k : ProjectName)
    (v : InstalledDistribution) (h : k ∉ m.map Prod.fst) : odInsert m k v = m ++ [(k, v)] := by
  induction m with
  | nil => rfl
  | cons g rest ih =>
      rcases g with ⟨k1, v1⟩
      simp only [List.map_cons, List.mem_cons] at h
      push_neg at h
      simp only [odInsert, List.cons_append]
      rw [ih h.2, if_neg (fun hc => h.1 hc.symm)]

/-- With pairwise distinct project names, the by-name OrderedDict is just
the list of (name, distribution) pairs. -/
theorem installedByProjectName_of_nodup (installed : List InstalledDistribution)
    (hnd : (installed.map (fun d => d.distribution.project_name)).Nodup) :
    installedByProjectName installed
      = installed.map (fun d => (d.distribution.project_name, d)) := by
  induction installed using List.reverseRecOn with
  | nil => rfl
  | append_singleton l d ih =>
      have hstep : installedByProjectName (l ++ [d])
          = odInsert (installedByProjectName l) d.distribution.project_name d := by
        simp [installedByProjectName, List.foldl_append]
      have hnd2 : (l.map (fun x => x.distribution.project_name)).Nodup := by
        simp only [List.map_append, List.nodup_append] at hnd
        exact hnd.1
      have hfresh : d.distribution.project_name ∉ l.map (fun x => x.distribution.project_name)
          := by
        simp only [List.map_append, List.nodup_append] at hnd
        intro hmem
        exact hnd.2.2 hmem (by simp)
      rw [hstep, ih hnd2, odInsert_not_mem]
      · simp
      · simpa [List.map_map, Function.comp] using hfresh

/-- Lookup in the paired-off list is the first matching distribution. -/
theorem lookup_map_pair (installed : List InstalledDistribution) (k : ProjectName) :
    (installed.map (fun d => (d.distribution.project_name, d))).lookup k
      = installed.find? (fun d => d.distribution.project_name == k) := by
  induction installed with
  | nil => rfl
  | cons d rest ih =>
      by_cases h : d.distribution.project_name == k
      · have hk : (k == d.distribution.project_name) = true := by
          rw [beq_iff_eq] at h ⊢
          exact h.symm
        simp [List.lookup, List.find?, h, hk]
      · have hne : d.distribution.project_name ≠ k := by
          intro hc
          exact h (beq_iff_eq.mpr hc)
        have hk : (k == d.distribution.project_name) = false :=
          beq_eq_false_iff_ne.mpr (Ne.symm hne)
        have hfd : (d.distribution.project_name == k) = false :=
          beq_eq_false_iff_ne.mpr hne
        simp [List.lookup, List.find?, hk, hfd, ih]

/-- Under distinct project names, `_check_install` computes exactly the
claim's full enumeration of violations. -/
theorem check_install_closed (installed : List InstalledDistribution)
    (hnd : (installed.map (fun d => d.distribution.project_name)).Nodup) :
    BuildAndInstallRequest._check_install installed
      = (if (specViolations installed).isEmpty then none
         else some (PexError.unsatisfiedCheck (specViolations installed))) := by
  have hby := installedByProjectName_of_nodup installed hnd
  have hflat : (installedByProjectName installed).flatMap
      (fun kv => violationsOf (installedByProjectName installed) kv.2)
      = specViolations installed := by
    rw [hby, List.flatMap_map]
    unfold specViolations
    refine flatMap_congr_left _ _ _ ?_
    intro d _
    unfold violationsOf
    refine filterMap_congr_left _ _ _ ?_
    intro r _
    rw [lookup_map_pair]
  simp only [BuildAndInstallRequest._check_install, hflat]

/-- Under distinct project names, the claim's existence of a violation is
exactly the nonemptiness of the enumerated violations. -/
theorem specViolations_ne_nil_iff (installed : List InstalledDistribution)
    (hnd : (installed.map (fun d => d.distribution.project_name)).Nodup) :
    specViolations installed ≠ [] ↔ specViolationExists installed := by
  constructor
  · intro hne
    obtain ⟨v, hv⟩ := List.exists_mem_of_ne_nil _ hne
    rw [specViolations, List.mem_flatMap] at hv
    obtain ⟨d, hd, hv⟩ := hv
    rw [List.mem_filterMap] at hv
    obtain ⟨r, hr, hbody⟩ := hv
    by_cases happ : d.target.requirement_applies r = true
    · refine ⟨d, hd, r, hr, happ, ?_⟩
      rintro ⟨d2, hd2, hname, hspec⟩
      rcases hfind : installed.find?
          (fun d3 => d3.distribution.project_name == r.project_name) with _ | d3
      · have := List.find?_eq_none.mp hfind d2 hd2
        rw [beq_iff_eq] at this
        exact this hname
      · rw [happ, hfind] at hbody
        simp only [Bool.not_true, Bool.false_eq_true, if_false] at hbody
        by_cases hspec3 : r.specifier_contains d3.distribution.version = true
        · rw [hspec3] at hbody
          simp at hbody
        · have hname3 : d3.distribution.project_name = r.project_name := by
            have := List.find?_some hfind
            rwa [beq_iff_eq] at this
          have hmem3 : d3 ∈ installed := List.mem_of_find?_eq_some hfind
          have heq23 : d2 = d3 :=
            List.inj_on_of_nodup_map hnd hd2 hmem3 (by rw [hname, hname3])
          rw [heq23] at hspec
          exact hspec3 hspec
    · simp only [Bool.not_eq_true] at happ
      rw [happ] at hbody
      simp at hbody
  · rintro ⟨d, hd, r, hr, happ, hnone⟩
    rcases hfind : installed.find?
        (fun d3 => d3.distribution.project_name == r.project_name) with _ | d3
    · refine List.ne_nil_of_mem (a := Violation.missing
        (d.distribution.project_name, d.distribution.version) r) ?_
      rw [specViolations, List.mem_flatMap]
      refine ⟨d, hd, ?_⟩
      rw [List.mem_filterMap]
      refine ⟨r, hr, ?_⟩
      rw [happ, hfind]
      rfl
    · have hname3 : d3.distribution.project_name = r.project_name := by
        have := List.find?_some hfind
        rwa [beq_iff_eq] at this
      have hmem3 : d3 ∈ installed := List.mem_of_find?_eq_some hfind
      have hspec3 : r.specifier_contains d3.distribution.version = false := by
        by_cases hs : r.specifier_contains d3.distribution.version = true
        · exact absurd ⟨d3, hmem3, hname3, hs⟩ hnone
        · simpa using hs
      refine List.ne_nil_of_mem (a := Violation.versionMismatch
        (d.distribution.project_name, d.distribution.version) r
        (d3.distribution.project_name, d3.distribution.version)) ?_
      rw [specViolations, List.mem_flatMap]
      refine ⟨d, hd, ?_⟩
      rw [List.mem_filterMap]
      refine ⟨r, hr, ?_⟩
      rw [happ, hfind]
      simp [hspec3]

/-- C1 (amended: restricted to installed sets with pairwise distinct
project names, which the by-name OrderedDict otherwise collapses).
`_check_install` raises Unsatisfiable if and only if some installed
distribution has a target-applicable requirement no installed
distribution's name-and-version satisfies, and when it raises, the error
carries the full enumeration of every violation across the whole installed
set, never only the first. -/
theorem claim_C1 (installed : List InstalledDistribution)
    (hnd : (installed.map (fun d => d.distribution.project_name)).Nodup) :
    BuildAndInstallRequest._check_install installed
      = (if (specViolations installed).isEmpty then none
         else some (PexError.unsatisfiedCheck (specViolations installed)))
    ∧ ((BuildAndInstallRequest._check_install installed).isSome
        ↔ specViolationExists installed)
    ∧ (∀ vs, BuildAndInstallRequest._check_install installed
          = some (PexError.unsatisfiedCheck vs) → vs = specViolations installed) := by
  have hclosed := check_install_closed installed hnd
  refine ⟨hclosed, ?_, ?_⟩
  · rw [hclosed]
    by_cases hemp : (specViolations installed).isEmpty = true
    · rw [if_pos hemp]
      have hnil : specViolations installed = [] := by simpa using hemp
      simp only [Option.isSome_none, Bool.false_eq_true, false_iff]
      intro hex
      exact ((specViolations_ne_nil_iff installed hnd).mpr hex) hnil
    · rw [if_neg hemp]
      simp only [Option.isSome_some, true_iff]
      refine (specViolations_ne_nil_iff installed hnd).mp ?_
      intro hnil
      rw [hnil] at hemp
      exact hemp rfl
  · intro vs hvs
    rw [hclosed] at hvs
    by_cases hemp : (specViolations installed).isEmpty = true
    · rw [if_pos hemp] at hvs
      cases hvs
    · rw [if_neg hemp] at hvs
      exact (PexError.unsatisfiedCheck.injEq _ _ ▸ (Option.some.inj hvs)).symm

/-- C1 witness: a requirement on the absent project x. -/
def rXw : Requirement :=
  { project_name := "x", url := none, specifier := [1], marker_targets := none }

/-- C1 witness: a requirement on project c that version 1 does not satisfy. -/
def rCw : Requirement :=
  { project_name := "c", url := none, specifier := [5], marker_targets := none }

/-- C1 witness distribution a (violates via the absent x). -/
def instA3 : InstalledDistribution :=
  { target := "t"
    fingerprinted_distribution :=
      { distribution := { project_name := "a", version := 1, requires_dists := [rXw] }
        fingerprint := "fa" } }

/-- C1 witness distribution b (violates via c's version). -/
def instB3 : InstalledDistribution :=
  { target := "t"
    fingerprinted_distribution :=
      { distribution := { project_name := "b", version := 1, requires_dists := [rCw] }
        fingerprint := "fb" } }

/-- C1 witness distribution c (no requirements). -/
def instC3 : InstalledDistribution :=
  { target := "t"
    fingerprinted_distribution :=
      { distribution := { project_name := "c", version := 1, requires_dists := [] }
        fingerprint := "fc" } }

/-- Witness for C1: three installed distributions with two independent
violations yield an aggregated error enumerating exactly the two failures.
-/
theorem claim_C1_witness :
    BuildAndInstallRequest._check_install [instA3, instB3, instC3]
      = some (PexError.unsatisfiedCheck
          [Violation.missing ("a", 1) rXw,
           Violation.versionMismatch ("b", 1) rCw ("c", 1)])
    ∧ (specViolations [instA3, instB3, instC3]).length = 2 := by
  have h := (claim_C1 [instA3, instB3, instC3] (by decide)).1
  refine ⟨?_, rfl⟩
  rw [h]
  rfl

/-!
The recursive file-local dependency closure
`BuildAndInstallRequest._resolve_direct_file_deps` (claim C9).  The
unbounded Python recursion is embedded with an explicit fuel parameter:
`none` marks fuel exhaustion (the Python recursion not having returned
within that depth); termination of the Python code on an input is the
existence of a sufficient fuel.
-/

/-- `OrderedSet(install_requests)`: dedup preserving first occurrences. -/
def dedupOrdered {α : Type} [DecidableEq α] (l : List α) : List α :=
  l.foldl orderedSetAdd []

/-- `s.update(t)` on an OrderedSet: add the members of `t` in order. -/
def orderedUnion {α : Type} [DecidableEq α] (s t : List α) : List α :=
  t.foldl orderedSetAdd s

/-- The inner requirement loop of one wheel's metadata scan: skip
requirements naming an already-analyzed project, requirements without a
URL, and non-file URLs; fail when the referenced path does not exist; add a
.whl path to `to_install` and anything else to `to_build`. -/
def analyzeReqs (env : Env) (target : Target) (wheel_file : String)
    (analyzed : List ProjectName) :
    List Requirement → List InstallRequest → List BuildRequest →
    Except PexError (List InstallRequest × List BuildRequest)
  | [], ti, tb => Except.ok (ti, tb)
  | requirement :: rest, ti, tb =>
      if requirement.project_name ∈ analyzed then
        analyzeReqs env target wheel_file analyzed rest ti tb
      else
        match requirement.url with
        | none => analyzeReqs env target wheel_file analyzed rest ti tb
        | some urlinfo =>
            if urlinfo.scheme ≠ "file" then
              analyzeReqs env target wheel_file analyzed rest ti tb
            else
              if !(env.pathExists urlinfo.path) then
                Except.error (PexError.missingFileDep wheel_file urlinfo)
              else if strEndsWith urlinfo.path ".whl" then
                analyzeReqs env target wheel_file analyzed rest
                  (orderedSetAdd ti (InstallRequest.create env target urlinfo.path)) tb
              else
                analyzeReqs env target wheel_file analyzed rest ti
                  (orderedSetAdd tb (BuildRequest.create env target urlinfo.path))

/-- One level's scan over the install requests: analyze each wheel's
declared requirements against the mutable analyzed set, then record the
wheel's own project name as analyzed. -/
def analyzeLevel (env : Env) :
    List InstallRequest → List ProjectName → List InstallRequest → List BuildRequest →
    Except PexError (List InstallRequest × List BuildRequest × List ProjectName)
  | [], analyzed, ti, tb => Except.ok (ti, tb, analyzed)
  | install_request :: rest, analyzed, ti, tb =>
      let metadata := env.loadDist install_request.wheel_path
      match analyzeReqs env install_request.target install_request.wheel_file analyzed
          metadata.requires_dists ti tb with
      | Except.error e => Except.error e
      | Except.ok (ti2, tb2) =>
          analyzeLevel env rest (orderedSetAdd analyzed metadata.project_name) ti2 tb2

/-- The build step of the closure: build the discovered source
dependencies (when any) and flatten the resulting install requests. -/
def buildPhase (env : Env) (σ : CacheState) (to_build : List BuildRequest) :
    Except PexError (CacheState × List InstallRequest) :=
  if to_build.isEmpty then Except.ok (σ, [])
  else
    match (WheelBuilder.build_wheels env σ to_build).2 with
    | Except.error e => Except.error e
    | Except.ok (σ1, build_results) =>
        Except.ok (σ1, build_results.flatMap (fun kv => kv.2))

/-- `BuildAndInstallRequest._resolve_direct_file_deps` with explicit fuel:
scan the wheels for file:// direct references, build the source-form ones,
recurse on every newly discovered install request with the grown analyzed
set, and return the originals united with the recursion's result. -/
def BuildAndInstallRequest._resolve_direct_file_deps (env : Env) :
    Nat → CacheState → List InstallRequest → List ProjectName →
    Option (Except PexError (CacheState × List InstallRequest))
  | 0, _, _, _ => none
  | fuel+1, σ, install_requests, analyzed =>
      match analyzeLevel env install_requests analyzed [] [] with
      | Except.error e => some (Except.error e)
      | Except.ok (to_install, to_build, analyzed2) =>
          let all_install_requests := dedupOrdered install_requests
          match buildPhase env σ to_build with
          | Except.error e => some (Except.error e)
          | Except.ok (σ1, built) =>
              let to_install2 := orderedUnion to_install built
              if to_install2.isEmpty then some (Except.ok (σ1, all_install_requests))
              else
                match BuildAndInstallRequest._resolve_direct_file_deps env fuel σ1
                    to_install2 analyzed2 with
                | none => none
                | some (Except.error e) => some (Except.error e)
                | some (Except.ok (σ2, rec)) =>
                    some (Except.ok (σ2, orderedUnion all_install_requests rec))

/-- Termination of the Python recursion on an input: some fuel suffices. -/
def terminatesOn (env : Env) (σ : CacheState) (reqs : List InstallRequest)
    (analyzed : List ProjectName) : Prop :=
  ∃ n, (BuildAndInstallRequest._resolve_direct_file_deps env n σ reqs analyzed).isSome = true

/-- C9 counterexample: a wheel whose metadata project name (d) differs
from the name (e) under which it file-references itself, so e never enters
the analyzed set. -/
def reqE : Requirement :=
  { project_name := "e", url := some { scheme := "file", path := "/p.whl" }
    specifier := [], marker_targets := none }

/-- C9 counterexample environment: every path loads the self-referencing
wheel metadata. -/
def env9 : Env :=
  { envW with
    loadDist := fun _ =>
      { project_name := "d", version := 1, requires_dists := [reqE] } }

/-- C9 counterexample install request for the self-referencing wheel. -/
def ir9 : InstallRequest := InstallRequest.create env9 "t" "/p.whl"

/-- After the first level the state repeats exactly: the analyzed set stays
at d and the discovered install request is again the same wheel. -/
theorem resolve_deps_env9_step (n : Nat) (σ : CacheState) :
    BuildAndInstallRequest._resolve_direct_file_deps env9 (n+1) σ [ir9] ["d"]
      = (match BuildAndInstallRequest._resolve_direct_file_deps env9 n σ [ir9] ["d"] with
        | none => none
        | some (Except.error e) => some (Except.error e)
        | some (Except.ok (σ2, rec)) =>
            some (Except.ok (σ2, orderedUnion [ir9] rec))) := rfl

/-- The self-referencing input never returns, at the repeating state. -/
theorem resolve_deps_env9_none (n : Nat) :
    ∀ σ, BuildAndInstallRequest._resolve_direct_file_deps env9 n σ [ir9] ["d"] = none := by
  induction n with
  | zero => intro σ; rfl
  | succ n ih =>
      intro σ
      rw [resolve_deps_env9_step, ih σ]

/-- C9 is falsified as stated: `_resolve_direct_file_deps` does not
terminate for every input — a wheel file-referenced under a requirement
name differing from its own metadata name is re-analyzed forever, since
only metadata names enter the analyzed set. -/
theorem claim_C9_counterexample : ¬ terminatesOn env9 [] [ir9] [] := by
  rintro ⟨n, hn⟩
  rcases n with _ | n
  · cases hn
  · have hstep : BuildAndInstallRequest._resolve_direct_file_deps env9 (n+1) [] [ir9] []
        = (match BuildAndInstallRequest._resolve_direct_file_deps env9 n [] [ir9] ["d"] with
          | none => none
          | some (Except.error e) => some (Except.error e)
          | some (Except.ok (σ2, rec)) =>
              some (Except.ok (σ2, orderedUnion [ir9] rec))) := rfl
    rw [hstep, resolve_deps_env9_none n []] at hn
    cases hn

/-- Membership in an OrderedSet add. -/
theorem mem_orderedSetAdd {α : Type} [DecidableEq α] (s : List α) (a x : α) :
    x ∈ orderedSetAdd s a ↔ x ∈ s ∨ x = a := by
  unfold orderedSetAdd
  by_cases h : a ∈ s
  · rw [if_pos h]
    constructor
    · exact Or.inl
    · rintro (hx | rfl)
      · exact hx
      · exact h
  · rw [if_neg h]
    simp

/-- OrderedSet add preserves distinctness. -/
theorem nodup_orderedSetAdd {α : Type} [DecidableEq α] (s : List α) (a : α)
    (h : s.Nodup) : (orderedSetAdd s a).Nodup := by
  unfold orderedSetAdd
  by_cases hm : a ∈ s
  · rwa [if_pos hm]
  · rw [if_neg hm, List.nodup_append]
    exact ⟨h, List.nodup_singleton a, by simpa [List.disjoint_singleton] using hm⟩

/-- Membership in an OrderedSet union. -/
theorem mem_orderedUnion {α : Type} [DecidableEq α] (t : List α) :
    ∀ (s : List α) (x : α), x ∈ orderedUnion s t ↔ x ∈ s ∨ x ∈ t := by
  induction t with
  | nil => intro s x; simp [orderedUnion]
  | cons a rest ih =>
      intro s x
      have hstep : orderedUnion s (a :: rest) = orderedUnion (orderedSetAdd s a) rest := rfl
      rw [hstep, ih, mem_orderedSetAdd]
      constructor
      · rintro ((hx | hxa) | hx)
        · exact Or.inl hx
        · exact Or.inr (by rw [hxa]; exact List.mem_cons_self a rest)
        · exact Or.inr (List.mem_cons_of_mem a hx)
      · rintro (hx | hx)
        · exact Or.inl (Or.inl hx)
        · rcases List.mem_cons.mp hx with rfl | hx
          · exact Or.inl (Or.inr rfl)
          · exact Or.inr hx

/-- OrderedSet union preserves distinctness of the base. -/
theorem nodup_orderedUnion {α : Type} [DecidableEq α] (t : List α) :
    ∀ (s : List α), s.Nodup → (orderedUnion s t).Nodup := by
  induction t with
  | nil => intro s h; exact h
  | cons a rest ih =>
      intro s h
      exact ih (orderedSetAdd s a) (nodup_orderedSetAdd s a h)

/-- `OrderedSet(l)` keeps exactly the members of `l`. -/
theorem mem_dedupOrdered {α : Type} [DecidableEq α] (l : List α) (x : α) :
    x ∈ dedupOrdered l ↔ x ∈ l := by
  have h : dedupOrdered l = orderedUnion [] l := rfl
  rw [h, mem_orderedUnion]
  simp

/-- `OrderedSet(l)` is distinct. -/
theorem nodup_dedupOrdered {α : Type} [DecidableEq α] (l : List α) :
    (dedupOrdered l).Nodup := by
  have h : dedupOrdered l = orderedUnion [] l := rfl
  rw [h]
  exact nodup_orderedUnion l [] List.nodup_nil

/-- Filtering with a pointwise-stronger predicate yields at most as many
elements. -/
theorem length_filter_mono {α : Type} (p q : α → Bool)
    (h : ∀ a, p a = true → q a = true) :
    ∀ (l : List α), (l.filter p).length ≤ (l.filter q).length := by
  intro l
  induction l with
  | nil => exact Nat.le_refl 0
  | cons a rest ih =>
      by_cases hp : p a = true
      · simp [List.filter, hp, h a hp, Nat.succ_le_succ ih]
      · simp only [Bool.not_eq_true] at hp
        by_cases hq : q a = true
        · simp only [List.filter, hp, hq]
          exact Nat.le_trans ih (Nat.le_succ _)
        · simp only [Bool.not_eq_true] at hq
          simp only [List.filter, hp, hq]
          exact ih

/-- Filtering with a pointwise-stronger predicate that loses a member of
the list yields strictly fewer elements. -/
theorem length_filter_lt {α : Type} (p q : α → Bool)
    (h : ∀ a, p a = true → q a = true) :
    ∀ (l : List α) (a : α), a ∈ l → q a = true → p a = false →
    (l.filter p).length < (l.filter q).length := by
  intro l
  induction l with
  | nil => intro a ha; cases ha
  | cons b rest ih =>
      intro a ha hq hp
      rcases List.mem_cons.mp ha with rfl | ha2
      · simp only [List.filter, hp, hq]
        exact Nat.lt_succ_of_le (length_filter_mono p q h rest)
      · by_cases hpb : p b = true
        · simp only [List.filter, hpb, h b hpb, List.length_cons]
          exact Nat.succ_lt_succ (ih a ha2 hq hp)
        · simp only [Bool.not_eq_true] at hpb
          by_cases hqb : q b = true
          · simp only [List.filter, hpb, hqb, List.length_cons]
            exact Nat.lt_succ_of_lt (ih a ha2 hq hp)
          · simp only [Bool.not_eq_true] at hqb
            simp only [List.filter, hpb, hqb]
            exact ih a ha2 hq hp

/-- The metadata project name of the wheel an install request names. -/
def distName (env : Env) (ir : InstallRequest) : ProjectName :=
  (env.loadDist ir.wheel_path).project_name

/-- Provenance of the install requests collected by the requirement scan:
each is pre-existing or created from a file:// .whl requirement whose
project name was not yet analyzed. -/
theorem analyzeReqs_ti_spec (env : Env) (target : Target) (wfile : String)
    (analyzed : List ProjectName) :
    ∀ (rs : List Requirement) (ti : List InstallRequest) (tb : List BuildRequest)
      (ti2 : List InstallRequest) (tb2 : List BuildRequest),
    analyzeReqs env target wfile analyzed rs ti tb = Except.ok (ti2, tb2) →
    ∀ ir ∈ ti2, ir ∈ ti ∨ ∃ r ∈ rs, ∃ u, r.url = some u ∧ u.scheme = "file"
      ∧ strEndsWith u.path ".whl" = true ∧ r.project_name ∉ analyzed
      ∧ ir = InstallRequest.create env target u.path := by
  intro rs
  induction rs with
  | nil =>
      intro ti tb ti2 tb2 hok ir hir
      simp only [analyzeReqs, Except.ok.injEq, Prod.mk.injEq] at hok
      rw [← hok.1] at hir
      exact Or.inl hir
  | cons requirement rest ih =>
      intro ti tb ti2 tb2 hok ir hir
      rw [analyzeReqs] at hok
      by_cases hana : requirement.project_name ∈ analyzed
      · rw [if_pos hana] at hok
        rcases ih ti tb ti2 tb2 hok ir hir with h | ⟨r, hr, hrest⟩
        · exact Or.inl h
        · exact Or.inr ⟨r, List.mem_cons_of_mem _ hr, hrest⟩
      · rw [if_neg hana] at hok
        split at hok
        · rcases ih ti tb ti2 tb2 hok ir hir with h | ⟨r, hr, hrest⟩
          · exact Or.inl h
          · exact Or.inr ⟨r, List.mem_cons_of_mem _ hr, hrest⟩
        · rename_i u hurl
          split at hok
          · rcases ih ti tb ti2 tb2 hok ir hir with h | ⟨r, hr, hrest⟩
            · exact Or.inl h
            · exact Or.inr ⟨r, List.mem_cons_of_mem _ hr, hrest⟩
          · rename_i hsch
            rw [Decidable.not_not] at hsch
            split at hok
            · cases hok
            · rename_i hex
              split at hok
              · rename_i hwhl
                rcases ih _ tb ti2 tb2 hok ir hir with h | ⟨r, hr, hrest⟩
                · rcases (mem_orderedSetAdd _ _ _).mp h with h2 | h2
                  · exact Or.inl h2
                  · exact Or.inr ⟨requirement, List.mem_cons_self _ _,
                      u, hurl, hsch, hwhl, hana, h2⟩
                · exact Or.inr ⟨r, List.mem_cons_of_mem _ hr, hrest⟩
              · rcases ih ti _ ti2 tb2 hok ir hir with h | ⟨r, hr, hrest⟩
                · exact Or.inl h
                · exact Or.inr ⟨r, List.mem_cons_of_mem _ hr, hrest⟩

/-- Provenance of the build requests collected by the requirement scan. -/
theorem analyzeReqs_tb_spec (env : Env) (target : Target) (wfile : String)
    (analyzed : List ProjectName) :
    ∀ (rs : List Requirement) (ti : List InstallRequest) (tb : List BuildRequest)
      (ti2 : List InstallRequest) (tb2 : List BuildRequest),
    analyzeReqs env target wfile analyzed rs ti tb = Except.ok (ti2, tb2) →
    ∀ br ∈ tb2, br ∈ tb ∨ ∃ r ∈ rs, ∃ u, r.url = some u ∧ u.scheme = "file"
      ∧ strEndsWith u.path ".whl" = false ∧ r.project_name ∉ analyzed
      ∧ br = BuildRequest.create env target u.path := by
  intro rs
  induction rs with
  | nil =>
      intro ti tb ti2 tb2 hok br hbr
      simp only [analyzeReqs, Except.ok.injEq, Prod.mk.injEq] at hok
      rw [← hok.2] at hbr
      exact Or.inl hbr
  | cons requirement rest ih =>
      intro ti tb ti2 tb2 hok br hbr
      rw [analyzeReqs] at hok
      by_cases hana : requirement.project_name ∈ analyzed
      · rw [if_pos hana] at hok
        rcases ih ti tb ti2 tb2 hok br hbr with h | ⟨r, hr, hrest⟩
        · exact Or.inl h
        · exact Or.inr ⟨r, List.mem_cons_of_mem _ hr, hrest⟩
      · rw [if_neg hana] at hok
        split at hok
        · rcases ih ti tb ti2 tb2 hok br hbr with h | ⟨r, hr, hrest⟩
          · exact Or.inl h
          · exact Or.inr ⟨r, List.mem_cons_of_mem _ hr, hrest⟩
        · rename_i u hurl
          split at hok
          · rcases ih ti tb ti2 tb2 hok br hbr with h | ⟨r, hr, hrest⟩
            · exact Or.inl h
            · exact Or.inr ⟨r, List.mem_cons_of_mem _ hr, hrest⟩
          · rename_i hsch
            rw [Decidable.not_not] at hsch
            split at hok
            · cases hok
            · rename_i hex
              split at hok
              · rcases ih _ tb ti2 tb2 hok br hbr with h | ⟨r, hr, hrest⟩
                · exact Or.inl h
                · exact Or.inr ⟨r, List.mem_cons_of_mem _ hr, hrest⟩
              · rename_i hwhl
                rcases ih ti _ ti2 tb2 hok br hbr with h | ⟨r, hr, hrest⟩
                · rcases (mem_orderedSetAdd _ _ _).mp h with h2 | h2
                  · exact Or.inl h2
                  · exact Or.inr ⟨requirement, List.mem_cons_self _ _,
                      u, hurl, hsch, by simpa using hwhl, hana, h2⟩
                · exact Or.inr ⟨r, List.mem_cons_of_mem _ hr, hrest⟩

/-- The analyzed set a level returns: the entry set plus the scanned
wheels' metadata project names. -/
theorem analyzeLevel_analyzed_spec (env : Env) :
    ∀ (reqs : List InstallRequest) (analyzed : List ProjectName)
      (ti : List InstallRequest) (tb : List BuildRequest)
      (ti2 : List InstallRequest) (tb2 : List BuildRequest) (analyzed2 : List ProjectName),
    analyzeLevel env reqs analyzed ti tb = Except.ok (ti2, tb2, analyzed2) →
    ∀ x, x ∈ analyzed2 ↔ x ∈ analyzed ∨ ∃ ir ∈ reqs, distName env ir = x := by
  intro reqs
  induction reqs with
  | nil =>
      intro analyzed ti tb ti2 tb2 analyzed2 hok x
      simp only [analyzeLevel, Except.ok.injEq, Prod.mk.injEq] at hok
      rw [← hok.2.2]
      simp
  | cons install_request rest ih =>
      intro analyzed ti tb ti2 tb2 analyzed2 hok x
      rw [analyzeLevel] at hok
      split at hok
      · cases hok
      · rename_i ti_mid tb_mid hreqs
        have := ih (orderedSetAdd analyzed
          (env.loadDist install_request.wheel_path).project_name) ti_mid tb_mid ti2 tb2 analyzed2
          hok x
        rw [this, mem_orderedSetAdd]
        constructor
        · rintro ((hx | hx) | ⟨ir, hir, hd⟩)
          · exact Or.inl hx
          · exact Or.inr ⟨install_request, List.mem_cons_self _ _, hx.symm⟩
          · exact Or.inr ⟨ir, List.mem_cons_of_mem _ hir, hd⟩
        · rintro (hx | ⟨ir, hir, hd⟩)
          · exact Or.inl (Or.inl hx)
          · rcases List.mem_cons.mp hir with rfl | hir2
            · exact Or.inl (Or.inr hd.symm)
            · exact Or.inr ⟨ir, hir2, hd⟩

/-- The entry analyzed set only grows along a level. -/
theorem analyzeLevel_analyzed_mono (env : Env) :
    ∀ (reqs : List InstallRequest) (analyzed : List ProjectName)
      (ti : List InstallRequest) (tb : List BuildRequest)
      (ti2 : List InstallRequest) (tb2 : List BuildRequest) (analyzed2 : List ProjectName),
    analyzeLevel env reqs analyzed ti tb = Except.ok (ti2, tb2, analyzed2) →
    ∀ x ∈ analyzed, x ∈ analyzed2 := by
  intro reqs analyzed ti tb ti2 tb2 analyzed2 hok x hx
  rw [analyzeLevel_analyzed_spec env reqs analyzed ti tb ti2 tb2 analyzed2 hok x]
  exact Or.inl hx

/-- Provenance of a level's collected install requests: each is
pre-existing or created from a file:// .whl requirement of some scanned
wheel, under a project name outside the entry analyzed set. -/
theorem analyzeLevel_ti_spec (env : Env) :
    ∀ (reqs : List InstallRequest) (analyzed : List ProjectName)
      (ti : List InstallRequest) (tb : List BuildRequest)
      (ti2 : List InstallRequest) (tb2 : List BuildRequest) (analyzed2 : List ProjectName),
    analyzeLevel env reqs analyzed ti tb = Except.ok (ti2, tb2, analyzed2) →
    ∀ ir ∈ ti2, ir ∈ ti ∨ ∃ parent ∈ reqs,
      ∃ r ∈ (env.loadDist parent.wheel_path).requires_dists, ∃ u,
      r.url = some u ∧ u.scheme = "file" ∧ strEndsWith u.path ".whl" = true
      ∧ r.project_name ∉ analyzed ∧ ir = InstallRequest.create env parent.target u.path := by
  intro reqs
  induction reqs with
  | nil =>
      intro analyzed ti tb ti2 tb2 analyzed2 hok ir hir
      simp only [analyzeLevel, Except.ok.injEq, Prod.mk.injEq] at hok
      rw [← hok.1] at hir
      exact Or.inl hir
  | cons install_request rest ih =>
      intro analyzed ti tb ti2 tb2 analyzed2 hok ir hir
      rw [analyzeLevel] at hok
      split at hok
      · cases hok
      · rename_i ti_mid tb_mid hreqs
        have hsub : ∀ y ∈ analyzed, y ∈ orderedSetAdd analyzed
            (env.loadDist install_request.wheel_path).project_name := by
          intro y hy
          exact (mem_orderedSetAdd _ _ _).mpr (Or.inl hy)
        rcases ih (orderedSetAdd analyzed
            (env.loadDist install_request.wheel_path).project_name) ti_mid tb_mid ti2 tb2 analyzed2
            hok ir hir with h | ⟨parent, hparent, r, hr, u, hu, hs, hw, hnotin, heq⟩
        · rcases analyzeReqs_ti_spec env install_request.target install_request.wheel_file
              analyzed (env.loadDist install_request.wheel_path).requires_dists ti tb ti_mid tb_mid
              hreqs ir h with h2 | ⟨r, hr, u, hu, hs, hw, hnotin, heq⟩
          · exact Or.inl h2
          · exact Or.inr ⟨install_request, List.mem_cons_self _ _, r, hr, u, hu, hs, hw,
              hnotin, heq⟩
        · refine Or.inr ⟨parent, List.mem_cons_of_mem _ hparent, r, hr, u, hu, hs, hw, ?_, heq⟩
          intro hc
          exact hnotin (hsub _ hc)

/-- Provenance of a level's collected build requests. -/
theorem analyzeLevel_tb_spec (env : Env) :
    ∀ (reqs : List InstallRequest) (analyzed : List ProjectName)
      (ti : List InstallRequest) (tb : List BuildRequest)
      (ti2 : List InstallRequest) (tb2 : List BuildRequest) (analyzed2 : List ProjectName),
    analyzeLevel env reqs analyzed ti tb = Except.ok (ti2, tb2, analyzed2) →
    ∀ br ∈ tb2, br ∈ tb ∨ ∃ parent ∈ reqs,
      ∃ r ∈ (env.loadDist parent.wheel_path).requires_dists, ∃ u,
      r.url = some u ∧ u.scheme = "file" ∧ strEndsWith u.path ".whl" = false
      ∧ r.project_name ∉ analyzed ∧ br = BuildRequest.create env parent.target u.path := by
  intro reqs
  induction reqs with
  | nil =>
      intro analyzed ti tb ti2 tb2 analyzed2 hok br hbr
      simp only [analyzeLevel, Except.ok.injEq, Prod.mk.injEq] at hok
      rw [← hok.2.1] at hbr
      exact Or.inl hbr
  | cons install_request rest ih =>
      intro analyzed ti tb ti2 tb2 analyzed2 hok br hbr
      rw [analyzeLevel] at hok
      split at hok
      · cases hok
      · rename_i ti_mid tb_mid hreqs
        have hsub : ∀ y ∈ analyzed, y ∈ orderedSetAdd analyzed
            (env.loadDist install_request.wheel_path).project_name := by
          intro y hy
          exact (mem_orderedSetAdd _ _ _).mpr (Or.inl hy)
        rcases ih (orderedSetAdd analyzed
            (env.loadDist install_request.wheel_path).project_name) ti_mid tb_mid ti2 tb2 analyzed2
            hok br hbr with h | ⟨parent, hparent, r, hr, u, hu, hs, hw, hnotin, heq⟩
        · rcases analyzeReqs_tb_spec env install_request.target install_request.wheel_file
              analyzed (env.loadDist install_request.wheel_path).requires_dists ti tb ti_mid tb_mid
              hreqs br h with h2 | ⟨r, hr, u, hu, hs, hw, hnotin, heq⟩
          · exact Or.inl h2
          · exact Or.inr ⟨install_request, List.mem_cons_self _ _, r, hr, u, hu, hs, hw,
              hnotin, heq⟩
        · refine Or.inr ⟨parent, List.mem_cons_of_mem _ hparent, r, hr, u, hu, hs, hw, ?_, heq⟩
          intro hc
          exact hnotin (hsub _ hc)

/-- A successful `buildOutcome` returns the single wheel found inside the
request's own cache slot. -/
theorem buildOutcome_ok_shape (env : Env) (σf : CacheState) (r : BuildResult)
    (ir : InstallRequest) (h : buildOutcome env σf r = Except.ok ir) :
    ∃ name, ir = InstallRequest.create env r.request.target (pjoin r.dist_dir name) := by
  unfold buildOutcome at h
  split at h
  · rename_i wheel_path hwp
    have hmem : wheel_path ∈ builtWheels σf r := by
      rw [hwp]
      exact List.mem_cons_self _ _
    unfold builtWheels at hmem
    rw [List.mem_map] at hmem
    obtain ⟨name, _, hname⟩ := hmem
    split at h
    · split at h
      · cases h
      · simp only [Except.ok.injEq] at h
        exact ⟨name, by rw [← h, ← hname]⟩
    · simp only [Except.ok.injEq] at h
      exact ⟨name, by rw [← h, ← hname]⟩
  · cases h

/-- Values after a `mapAdd`: pre-existing, or the inserted request. -/
theorem mapAdd_values (key : String) (ir : InstallRequest) :
    ∀ (m : BuildResultsMap), ∀ kv ∈ mapAdd m key ir, ∀ q ∈ kv.2,
      (∃ kv0 ∈ m, q ∈ kv0.2) ∨ q = ir := by
  intro m
  induction m with
  | nil =>
      intro kv hkv q hq
      simp only [mapAdd, List.mem_singleton] at hkv
      rw [hkv] at hq
      rcases List.mem_cons.mp hq with h | h
      · exact Or.inr h
      · cases h
  | cons g rest ih =>
      rcases g with ⟨k, s⟩
      intro kv hkv q hq
      by_cases hk : k = key
      · rw [mapAdd, if_pos hk] at hkv
        rcases List.mem_cons.mp hkv with rfl | hkv2
        · rcases (mem_orderedSetAdd s ir q).mp hq with h | h
          · exact Or.inl ⟨(k, s), List.mem_cons_self _ _, h⟩
          · exact Or.inr h
        · exact Or.inl ⟨kv, List.mem_cons_of_mem _ hkv2, hq⟩
      · rw [mapAdd, if_neg hk] at hkv
        rcases List.mem_cons.mp hkv with rfl | hkv2
        · exact Or.inl ⟨(k, s), List.mem_cons_self _ _, hq⟩
        · rcases ih kv hkv2 q hq with ⟨kv0, hkv0, hq0⟩ | h
          · exact Or.inl ⟨kv0, List.mem_cons_of_mem _ hkv0, hq0⟩
          · exact Or.inr h

/-- Provenance through `_categorize_build_requests`: every grouped install
request is pre-existing or the finalize result of one of the scanned
requests' own cache slots, and every unsatisfied request is pre-existing or
one of the scanned requests. -/
theorem categorizeBuild_spec (env : Env) (σ : CacheState) (dist_root : String) :
    ∀ (reqs : List BuildRequest) (acc : List BuildRequest × BuildResultsMap)
      (unsat : List BuildRequest) (m : BuildResultsMap),
    WheelBuilder._categorize_build_requests env σ dist_root reqs acc = Except.ok (unsat, m) →
    (∀ kv ∈ m, ∀ q ∈ kv.2, (∃ kv0 ∈ acc.2, q ∈ kv0.2)
        ∨ ∃ br ∈ reqs, ∃ name, q = InstallRequest.create env br.target
            (pjoin (BuildResult.from_request env br dist_root).dist_dir name))
    ∧ (∀ b ∈ unsat, b ∈ acc.1 ∨ b ∈ reqs) := by
  intro reqs
  induction reqs with
  | nil =>
      intro acc unsat m hok
      simp only [WheelBuilder._categorize_build_requests, Except.ok.injEq] at hok
      constructor
      · intro kv hkv q hq
        refine Or.inl ⟨kv, ?_, hq⟩
        rw [hok]
        exact hkv
      · intro b hb
        rw [hok]
        exact Or.inl hb
  | cons br rest ih =>
      intro acc unsat m hok
      rw [WheelBuilder._categorize_build_requests] at hok
      split at hok
      · split at hok
        · cases hok
        · rename_i ir2 hfin
          have hshape := buildOutcome_ok_shape env
            (finalizeDir σ (BuildRequest.result env br dist_root).dist_dir [])
            (BuildRequest.result env br dist_root) ir2 hfin
          obtain ⟨hvals, hunsat⟩ := ih _ unsat m hok
          constructor
          · intro kv hkv q hq
            rcases hvals kv hkv q hq with ⟨kv0, hkv0, hq0⟩ | ⟨br2, hbr2, name, hname⟩
            · rcases mapAdd_values br.source_path ir2 acc.2 kv0 hkv0 q hq0 with h | h
              · exact Or.inl h
              · obtain ⟨name, hname⟩ := hshape
                exact Or.inr ⟨br, List.mem_cons_self _ _, name, by rw [h, hname]; rfl⟩
            · exact Or.inr ⟨br2, List.mem_cons_of_mem _ hbr2, name, hname⟩
          · intro b hb
            rcases hunsat b hb with h | h
            · exact Or.inl h
            · exact Or.inr (List.mem_cons_of_mem _ h)
      · obtain ⟨hvals, hunsat⟩ := ih _ unsat m hok
        constructor
        · intro kv hkv q hq
          rcases hvals kv hkv q hq with ⟨kv0, hkv0, hq0⟩ | ⟨br2, hbr2, name, hname⟩
          · exact Or.inl ⟨kv0, hkv0, hq0⟩
          · exact Or.inr ⟨br2, List.mem_cons_of_mem _ hbr2, name, hname⟩
        · intro b hb
          rcases hunsat b hb with h | h
          · rcases List.mem_append.mp h with h2 | h2
            · exact Or.inl h2
            · exact Or.inr (by
                rw [List.mem_singleton] at h2
                rw [h2]
                exact List.mem_cons_self _ _)
          · exact Or.inr (List.mem_cons_of_mem _ h)

/-- Provenance through the spawn-and-finalize loop. -/
theorem buildFinalizeLoop_spec (env : Env) (dist_root : String) :
    ∀ (reqs : List BuildRequest) (σ : CacheState) (m0 : BuildResultsMap)
      (σ1 : CacheState) (m : BuildResultsMap),
    buildFinalizeLoop env dist_root reqs σ m0 = Except.ok (σ1, m) →
    ∀ kv ∈ m, ∀ q ∈ kv.2, (∃ kv0 ∈ m0, q ∈ kv0.2)
        ∨ ∃ br ∈ reqs, ∃ name, q = InstallRequest.create env br.target
            (pjoin (BuildResult.from_request env br dist_root).dist_dir name) := by
  intro reqs
  induction reqs with
  | nil =>
      intro σ m0 σ1 m hok kv hkv q hq
      simp only [buildFinalizeLoop, Except.ok.injEq, Prod.mk.injEq] at hok
      refine Or.inl ⟨kv, ?_, hq⟩
      rw [hok.2]
      exact hkv
  | cons br rest ih =>
      intro σ m0 σ1 m hok kv hkv q hq
      rw [buildFinalizeLoop] at hok
      split at hok
      · cases hok
      · rename_i σw ir2 hfin
        have hsnd : buildOutcome env
            (finalizeDir σ (BuildRequest.result env br dist_root).dist_dir
              (env.buildJob br))
            (BuildRequest.result env br dist_root) = Except.ok ir2 := by
          have := congrArg Prod.snd hfin
          rw [finalize_build_snd] at this
          exact this
        have hshape := buildOutcome_ok_shape env _ _ ir2 hsnd
        rcases ih σw _ σ1 m hok kv hkv q hq with ⟨kv0, hkv0, hq0⟩ | ⟨br2, hbr2, name, hname⟩
        · rcases mapAdd_values br.source_path ir2 m0 kv0 hkv0 q hq0 with h | h
          · exact Or.inl h
          · obtain ⟨name, hname⟩ := hshape
            exact Or.inr ⟨br, List.mem_cons_self _ _, name, by rw [h, hname]; rfl⟩
        · exact Or.inr ⟨br2, List.mem_cons_of_mem _ hbr2, name, hname⟩

/-- Provenance through `build_wheels`: every produced install request is
the single wheel of some input request's cache slot. -/
theorem build_wheels_values (env : Env) (σ : CacheState) (reqs : List BuildRequest)
    (σ1 : CacheState) (m : BuildResultsMap)
    (h : (WheelBuilder.build_wheels env σ reqs).2 = Except.ok (σ1, m)) :
    ∀ kv ∈ m, ∀ q ∈ kv.2, ∃ br ∈ reqs, ∃ name,
      q = InstallRequest.create env br.target
        (pjoin (BuildResult.from_request env br (pjoin env.pexRoot "built_wheels")).dist_dir
          name) := by
  intro kv hkv q hq
  by_cases he : reqs.isEmpty
  · have hval : (WheelBuilder.build_wheels env σ reqs).2 = Except.ok (σ, []) := by
      simp [WheelBuilder.build_wheels, he]
    rw [hval] at h
    simp only [Except.ok.injEq, Prod.mk.injEq] at h
    rw [← h.2] at hkv
    cases hkv
  · rcases hcat : WheelBuilder._categorize_build_requests env σ (pjoin env.pexRoot "built_wheels")
        reqs ([], []) with e | p
    · have hval : (WheelBuilder.build_wheels env σ reqs).2 = Except.error e := by
        simp [WheelBuilder.build_wheels, he, hcat]
      rw [hval] at h
      cases h
    · rcases p with ⟨unsat, m0⟩
      have hval : (WheelBuilder.build_wheels env σ reqs).2
          = buildFinalizeLoop env (pjoin env.pexRoot "built_wheels") unsat σ m0 := by
        simp [WheelBuilder.build_wheels, he, hcat]
      rw [hval] at h
      rcases buildFinalizeLoop_spec env (pjoin env.pexRoot "built_wheels") unsat σ m0 σ1 m h
          kv hkv q hq with ⟨kv0, hkv0, hq0⟩ | ⟨br2, hbr2, name, hname⟩
      · rcases (categorizeBuild_spec env σ (pjoin env.pexRoot "built_wheels") reqs ([], [])
            unsat m0 hcat).1 kv0 hkv0 q hq0 with ⟨kv1, hkv1, _⟩ | ⟨br2, hbr2, name, hname⟩
        · cases hkv1
        · exact ⟨br2, hbr2, name, hname⟩
      · rcases (categorizeBuild_spec env σ (pjoin env.pexRoot "built_wheels") reqs ([], [])
            unsat m0 hcat).2 br2 hbr2 with h2 | h2
        · cases h2
        · exact ⟨br2, h2, name, hname⟩

/-- Provenance through the build step of the closure. -/
theorem buildPhase_values (env : Env) (σ : CacheState) (tb : List BuildRequest)
    (σ1 : CacheState) (built : List InstallRequest)
    (h : buildPhase env σ tb = Except.ok (σ1, built)) :
    ∀ ir ∈ built, ∃ br ∈ tb, ∃ name,
      ir = InstallRequest.create env br.target
        (pjoin (BuildResult.from_request env br (pjoin env.pexRoot "built_wheels")).dist_dir
          name) := by
  intro ir hir
  rw [buildPhase] at h
  split at h
  · simp only [Except.ok.injEq, Prod.mk.injEq] at h
    rw [← h.2] at hir
    cases hir
  · split at h
    · cases h
    · rename_i σw m hbw
      simp only [Except.ok.injEq, Prod.mk.injEq] at h
      rw [← h.2, List.mem_flatMap] at hir
      obtain ⟨kv, hkv, hq⟩ := hir
      exact build_wheels_values env σ tb σw m hbw kv hkv ir hq

/-- A metadata-consistent environment: every file:// requirement found in
any loaded wheel's metadata references an artifact whose own loaded
metadata carries the referencing requirement's project name — directly for
a .whl reference, and for a source reference after building, whichever
wheel the build's cache slot yields. -/
def Env.wellNamed (env : Env) : Prop :=
  ∀ (p : String), ∀ r ∈ (env.loadDist p).requires_dists,
    ∀ (u : Url), r.url = some u → u.scheme = "file" →
    (strEndsWith u.path ".whl" = true →
      (env.loadDist u.path).project_name = r.project_name)
    ∧ (strEndsWith u.path ".whl" = false →
      ∀ (t : Target) (name : String),
        (env.loadDist (pjoin (BuildResult.from_request env
          (BuildRequest.create env t u.path)
          (pjoin env.pexRoot "built_wheels")).dist_dir name)).project_name
        = r.project_name)

/-- The number of universe names not yet analyzed: the termination
measure. -/
def namesLeft (U analyzed : List ProjectName) : Nat :=
  (U.filter (fun x => decide (x ∉ analyzed))).length

/-- Growing the analyzed set cannot grow the measure. -/
theorem namesLeft_le_of_sub (U A A2 : List ProjectName) (hsub : ∀ a ∈ A, a ∈ A2) :
    namesLeft U A2 ≤ namesLeft U A := by
  unfold namesLeft
  apply length_filter_mono
  intro a ha
  simp only [decide_eq_true_eq] at ha ⊢
  intro hc
  exact ha (hsub a hc)

/-- Absorbing a universe name strictly shrinks the measure. -/
theorem namesLeft_lt_of_new (U A A2 : List ProjectName) (hsub : ∀ a ∈ A, a ∈ A2)
    (x : ProjectName) (hxU : x ∈ U) (hxA : x ∉ A) (hxA2 : x ∈ A2) :
    namesLeft U A2 < namesLeft U A := by
  unfold namesLeft
  refine length_filter_lt (fun y => decide (y ∉ A2)) (fun y => decide (y ∉ A)) ?_ U x hxU ?_ ?_
  · intro a ha
    simp only [decide_eq_true_eq] at ha ⊢
    intro hc
    exact ha (hsub a hc)
  · simp only [decide_eq_true_eq]
    exact hxA
  · rw [decide_eq_false_iff_not]
    intro hc
    exact hc hxA2

/-- If the measure did not shrink, no universe name outside the old
analyzed set entered the new one. -/
theorem stagnant_not_mem (U A A2 : List ProjectName) (hsub : ∀ a ∈ A, a ∈ A2)
    (hnlt : ¬ namesLeft U A2 < namesLeft U A)
    (x : ProjectName) (hxU : x ∈ U) (hxA : x ∉ A) : x ∉ A2 :=
  fun hc => hnlt (namesLeft_lt_of_new U A A2 hsub x hxU hxA hc)

/-- In a well-named environment, every install request passed to the next
recursion level carries a metadata project name outside the entry analyzed
set. -/
theorem newInstalls_fresh (env : Env) (hwn : Env.wellNamed env)
    (σ : CacheState) (reqs : List InstallRequest) (analyzed : List ProjectName)
    (ti : List InstallRequest) (tb : List BuildRequest) (analyzed2 : List ProjectName)
    (σ1 : CacheState) (built : List InstallRequest)
    (hlev : analyzeLevel env reqs analyzed [] [] = Except.ok (ti, tb, analyzed2))
    (hbp : buildPhase env σ tb = Except.ok (σ1, built)) :
    ∀ ir ∈ orderedUnion ti built, distName env ir ∉ analyzed := by
  intro ir hir
  rcases (mem_orderedUnion built ti ir).mp hir with h | h
  · rcases analyzeLevel_ti_spec env reqs analyzed [] [] ti tb analyzed2 hlev ir h with
      h2 | ⟨parent, _, r, hr, u, hu, hs, hw, hnotin, heq⟩
    · cases h2
    · have hname := (hwn parent.wheel_path r hr u hu hs).1 hw
      rw [heq,
        show distName env (InstallRequest.create env parent.target u.path) = r.project_name
          from hname]
      exact hnotin
  · rcases buildPhase_values env σ tb σ1 built hbp ir h with ⟨br, hbr, name, hirq⟩
    rcases analyzeLevel_tb_spec env reqs analyzed [] [] ti tb analyzed2 hlev br hbr with
      h2 | ⟨parent, _, r, hr, u, hu, hs, hw, hnotin, heqbr⟩
    · cases h2
    · have hname := (hwn parent.wheel_path r hr u hu hs).2 hw parent.target name
      rw [hirq, heqbr,
        show distName env (InstallRequest.create env
            (BuildRequest.create env parent.target u.path).target
            (pjoin (BuildResult.from_request env (BuildRequest.create env parent.target u.path)
              (pjoin env.pexRoot "built_wheels")).dist_dir name)) = r.project_name
          from hname]
      exact hnotin

/-- One unfolding of the closure: requirement-scan failure. -/
theorem resolve_deps_lev_err (env : Env) (n : Nat) (σ : CacheState)
    (reqs : List InstallRequest) (analyzed : List ProjectName) (e : PexError)
    (hlev : analyzeLevel env reqs analyzed [] [] = Except.error e) :
    BuildAndInstallRequest._resolve_direct_file_deps env (n+1) σ reqs analyzed
      = some (Except.error e) := by
  rw [BuildAndInstallRequest._resolve_direct_file_deps, hlev]

/-- One unfolding of the closure: build failure. -/
theorem resolve_deps_bp_err (env : Env) (n : Nat) (σ : CacheState)
    (reqs : List InstallRequest) (analyzed : List ProjectName)
    (ti : List InstallRequest) (tb : List BuildRequest) (analyzed2 : List ProjectName)
    (e : PexError)
    (hlev : analyzeLevel env reqs analyzed [] [] = Except.ok (ti, tb, analyzed2))
    (hbp : buildPhase env σ tb = Except.error e) :
    BuildAndInstallRequest._resolve_direct_file_deps env (n+1) σ reqs analyzed
      = some (Except.error e) := by
  rw [BuildAndInstallRequest._resolve_direct_file_deps, hlev]
  simp only [hbp]

/-- One unfolding of the closure: fixed point reached, the deduped inputs
are returned. -/
theorem resolve_deps_done (env : Env) (n : Nat) (σ : CacheState)
    (reqs : List InstallRequest) (analyzed : List ProjectName)
    (ti : List InstallRequest) (tb : List BuildRequest) (analyzed2 : List ProjectName)
    (σ1 : CacheState) (built : List InstallRequest)
    (hlev : analyzeLevel env reqs analyzed [] [] = Except.ok (ti, tb, analyzed2))
    (hbp : buildPhase env σ tb = Except.ok (σ1, built))
    (hne : (orderedUnion ti built).isEmpty = true) :
    BuildAndInstallRequest._resolve_direct_file_deps env (n+1) σ reqs analyzed
      = some (Except.ok (σ1, dedupOrdered reqs)) := by
  rw [BuildAndInstallRequest._resolve_direct_file_deps, hlev]
  simp only [hbp, hne, if_true]

/-- One unfolding of the closure: recursion whose fuel ran out. -/
theorem resolve_deps_rec_none (env : Env) (n : Nat) (σ : CacheState)
    (reqs : List InstallRequest) (analyzed : List ProjectName)
    (ti : List InstallRequest) (tb : List BuildRequest) (analyzed2 : List ProjectName)
    (σ1 : CacheState) (built : List InstallRequest)
    (hlev : analyzeLevel env reqs analyzed [] [] = Except.ok (ti, tb, analyzed2))
    (hbp : buildPhase env σ tb = Except.ok (σ1, built))
    (hne : (orderedUnion ti built).isEmpty = false)
    (hin : BuildAndInstallRequest._resolve_direct_file_deps env n σ1
        (orderedUnion ti built) analyzed2 = none) :
    BuildAndInstallRequest._resolve_direct_file_deps env (n+1) σ reqs analyzed = none := by
  rw [BuildAndInstallRequest._resolve_direct_file_deps, hlev]
  simp only [hbp, hne, Bool.false_eq_true, if_false, hin]

/-- One unfolding of the closure: recursion failed. -/
theorem resolve_deps_rec_err (env : Env) (n : Nat) (σ : CacheState)
    (reqs : List InstallRequest) (analyzed : List ProjectName)
    (ti : List InstallRequest) (tb : List BuildRequest) (analyzed2 : List ProjectName)
    (σ1 : CacheState) (built : List InstallRequest) (e : PexError)
    (hlev : analyzeLevel env reqs analyzed [] [] = Except.ok (ti, tb, analyzed2))
    (hbp : buildPhase env σ tb = Except.ok (σ1, built))
    (hne : (orderedUnion ti built).isEmpty = false)
    (hin : BuildAndInstallRequest._resolve_direct_file_deps env n σ1
        (orderedUnion ti built) analyzed2 = some (Except.error e)) :
    BuildAndInstallRequest._resolve_direct_file_deps env (n+1) σ reqs analyzed
      = some (Except.error e) := by
  rw [BuildAndInstallRequest._resolve_direct_file_deps, hlev]
  simp only [hbp, hne, Bool.false_eq_true, if_false, hin]

/-- One unfolding of the closure: successful recursion, united with the
deduped inputs. -/
theorem resolve_deps_rec_ok (env : Env) (n : Nat) (σ : CacheState)
    (reqs : List InstallRequest) (analyzed : List ProjectName)
    (ti : List InstallRequest) (tb : List BuildRequest) (analyzed2 : List ProjectName)
    (σ1 : CacheState) (built : List InstallRequest)
    (σ2 : CacheState) (rec : List InstallRequest)
    (hlev : analyzeLevel env reqs analyzed [] [] = Except.ok (ti, tb, analyzed2))
    (hbp : buildPhase env σ tb = Except.ok (σ1, built))
    (hne : (orderedUnion ti built).isEmpty = false)
    (hin : BuildAndInstallRequest._resolve_direct_file_deps env n σ1
        (orderedUnion ti built) analyzed2 = some (Except.ok (σ2, rec))) :
    BuildAndInstallRequest._resolve_direct_file_deps env (n+1) σ reqs analyzed
      = some (Except.ok (σ2, orderedUnion (dedupOrdered reqs) rec)) := by
  rw [BuildAndInstallRequest._resolve_direct_file_deps, hlev]
  simp only [hbp, hne, Bool.false_eq_true, if_false, hin]

/-- Termination of the closure in a well-named environment whose metadata
project names lie in a finite universe `U`, by induction on the number of
universe names not yet analyzed. -/
theorem resolve_deps_terminates (env : Env) (U : List ProjectName)
    (hwn : Env.wellNamed env) (hU : ∀ p : String, (env.loadDist p).project_name ∈ U) :
    ∀ (m : Nat) (analyzed : List ProjectName), namesLeft U analyzed ≤ m →
    ∀ (σ : CacheState) (reqs : List InstallRequest),
    terminatesOn env σ reqs analyzed := by
  intro m
  induction m with
  | zero =>
      intro analyzed hm σ reqs
      rcases hlev : analyzeLevel env reqs analyzed [] [] with e | ⟨ti, tb, analyzed2⟩
      · exact ⟨1, by rw [resolve_deps_lev_err env 0 σ reqs analyzed e hlev]; rfl⟩
      · rcases hbp : buildPhase env σ tb with e | ⟨σ1, built⟩
        · refine ⟨1, ?_⟩
          rw [resolve_deps_bp_err env 0 σ reqs analyzed ti tb analyzed2 e hlev hbp]
          rfl
        · rcases hl : orderedUnion ti built with _ | ⟨ir0, rest0⟩
          · refine ⟨1, ?_⟩
            rw [resolve_deps_done env 0 σ reqs analyzed ti tb analyzed2 σ1 built hlev hbp
              (by rw [hl]; rfl)]
            rfl
          · exfalso
            have hir0 : ir0 ∈ orderedUnion ti built := by
              rw [hl]
              exact List.mem_cons_self _ _
            have hfresh := newInstalls_fresh env hwn σ reqs analyzed ti tb analyzed2 σ1 built
              hlev hbp ir0 hir0
            have hpos : 0 < namesLeft U analyzed := by
              unfold namesLeft
              apply List.length_pos.mpr
              intro hnil
              have : distName env ir0 ∈ U.filter (fun x => decide (x ∉ analyzed)) :=
                List.mem_filter.mpr ⟨hU ir0.wheel_path, by
                  simp only [decide_eq_true_eq]
                  exact hfresh⟩
              rw [hnil] at this
              cases this
            omega
  | succ m ih =>
      intro analyzed hm σ reqs
      rcases hlev : analyzeLevel env reqs analyzed [] [] with e | ⟨ti, tb, analyzed2⟩
      · exact ⟨1, by rw [resolve_deps_lev_err env 0 σ reqs analyzed e hlev]; rfl⟩
      rcases hbp : buildPhase env σ tb with e | ⟨σ1, built⟩
      · refine ⟨1, ?_⟩
        rw [resolve_deps_bp_err env 0 σ reqs analyzed ti tb analyzed2 e hlev hbp]
        rfl
      rcases hl : orderedUnion ti built with _ | ⟨ir0, rest0⟩
      · refine ⟨1, ?_⟩
        rw [resolve_deps_done env 0 σ reqs analyzed ti tb analyzed2 σ1 built hlev hbp
          (by rw [hl]; rfl)]
        rfl
      have hnef : (orderedUnion ti built).isEmpty = false := by
        rw [hl]
        rfl
      have hir0 : ir0 ∈ orderedUnion ti built := by
        rw [hl]
        exact List.mem_cons_self _ _
      have hfresh := newInstalls_fresh env hwn σ reqs analyzed ti tb analyzed2 σ1 built
        hlev hbp ir0 hir0
      have hxU : distName env ir0 ∈ U := hU ir0.wheel_path
      have hsub12 : ∀ a ∈ analyzed, a ∈ analyzed2 :=
        analyzeLevel_analyzed_mono env reqs analyzed [] [] ti tb analyzed2 hlev
      by_cases hlt : namesLeft U analyzed2 < namesLeft U analyzed
      · obtain ⟨n, hn⟩ := ih analyzed2 (by omega) σ1 (orderedUnion ti built)
        refine ⟨n + 1, ?_⟩
        rcases hin : BuildAndInstallRequest._resolve_direct_file_deps env n σ1
            (orderedUnion ti built) analyzed2 with _ | x
        · rw [hin] at hn
          cases hn
        · rcases x with e | ⟨σ2, rec⟩
          · rw [resolve_deps_rec_err env n σ reqs analyzed ti tb analyzed2 σ1 built e
              hlev hbp hnef hin]
            rfl
          · rw [resolve_deps_rec_ok env n σ reqs analyzed ti tb analyzed2 σ1 built σ2 rec
              hlev hbp hnef hin]
            rfl
      · have hx2 : distName env ir0 ∉ analyzed2 :=
          stagnant_not_mem U analyzed analyzed2 hsub12 hlt (distName env ir0) hxU hfresh
        rcases hlev2 : analyzeLevel env (orderedUnion ti built) analyzed2 [] [] with
          e | ⟨ti2, tb2, analyzed3⟩
        · refine ⟨2, ?_⟩
          rw [show (2 : Nat) = 1 + 1 from rfl,
            resolve_deps_rec_err env 1 σ reqs analyzed ti tb analyzed2 σ1 built e hlev hbp hnef
              (resolve_deps_lev_err env 0 σ1 (orderedUnion ti built) analyzed2 e hlev2)]
          rfl
        rcases hbp2 : buildPhase env σ1 tb2 with e | ⟨σ2, built2⟩
        · refine ⟨2, ?_⟩
          rw [show (2 : Nat) = 1 + 1 from rfl,
            resolve_deps_rec_err env 1 σ reqs analyzed ti tb analyzed2 σ1 built e hlev hbp hnef
              (resolve_deps_bp_err env 0 σ1 (orderedUnion ti built) analyzed2 ti2 tb2 analyzed3
                e hlev2 hbp2)]
          rfl
        rcases hl2 : orderedUnion ti2 built2 with _ | ⟨ir1, rest1⟩
        · refine ⟨2, ?_⟩
          rw [show (2 : Nat) = 1 + 1 from rfl,
            resolve_deps_rec_ok env 1 σ reqs analyzed ti tb analyzed2 σ1 built σ2
              (dedupOrdered (orderedUnion ti built)) hlev hbp hnef
              (resolve_deps_done env 0 σ1 (orderedUnion ti built) analyzed2 ti2 tb2 analyzed3
                σ2 built2 hlev2 hbp2 (by rw [hl2]; rfl))]
          rfl
        have hne2f : (orderedUnion ti2 built2).isEmpty = false := by
          rw [hl2]
          rfl
        have hx3 : distName env ir0 ∈ analyzed3 := by
          rw [analyzeLevel_analyzed_spec env (orderedUnion ti built) analyzed2 [] [] ti2 tb2
            analyzed3 hlev2 (distName env ir0)]
          exact Or.inr ⟨ir0, hir0, rfl⟩
        have hsub23 : ∀ a ∈ analyzed2, a ∈ analyzed3 :=
          analyzeLevel_analyzed_mono env (orderedUnion ti built) analyzed2 [] [] ti2 tb2
            analyzed3 hlev2
        have hlt3 : namesLeft U analyzed3 < namesLeft U analyzed2 :=
          namesLeft_lt_of_new U analyzed2 analyzed3 hsub23 (distName env ir0) hxU hx2 hx3
        have hle2 : namesLeft U analyzed2 ≤ namesLeft U analyzed :=
          namesLeft_le_of_sub U analyzed analyzed2 hsub12
        obtain ⟨n, hn⟩ := ih analyzed3 (by omega) σ2 (orderedUnion ti2 built2)
        refine ⟨n + 2, ?_⟩
        rcases hin : BuildAndInstallRequest._resolve_direct_file_deps env n σ2
            (orderedUnion ti2 built2) analyzed3 with _ | x
        · rw [hin] at hn
          cases hn
        · have hmid : ∃ res, BuildAndInstallRequest._resolve_direct_file_deps env (n+1) σ1
              (orderedUnion ti built) analyzed2 = some res := by
            rcases x with e | ⟨σ3, rec⟩
            · exact ⟨Except.error e, resolve_deps_rec_err env n σ1 (orderedUnion ti built)
                analyzed2 ti2 tb2 analyzed3 σ2 built2 e hlev2 hbp2 hne2f hin⟩
            · exact ⟨Except.ok (σ3, orderedUnion (dedupOrdered (orderedUnion ti built)) rec),
                resolve_deps_rec_ok env n σ1 (orderedUnion ti built) analyzed2 ti2 tb2
                  analyzed3 σ2 built2 σ3 rec hlev2 hbp2 hne2f hin⟩
          obtain ⟨res, hres⟩ := hmid
          rcases res with e | ⟨σ3, rec⟩
          · rw [show n + 2 = (n + 1) + 1 from rfl,
              resolve_deps_rec_err env (n+1) σ reqs analyzed ti tb analyzed2 σ1 built e
                hlev hbp hnef hres]
            rfl
          · rw [show n + 2 = (n + 1) + 1 from rfl,
              resolve_deps_rec_ok env (n+1) σ reqs analyzed ti tb analyzed2 σ1 built σ3 rec
                hlev hbp hnef hres]
            rfl

/-- Transitive file-local reachability from a root set: the shapes an
install request in the closure's result can take — an original, a
file-referenced wheel of a reachable wheel, or a wheel built from a
file-referenced source of a reachable wheel. -/
inductive FileDepReachable (env : Env) (roots : List InstallRequest) : InstallRequest → Prop
  | root (ir : InstallRequest) (h : ir ∈ roots) : FileDepReachable env roots ir
  | whl (parent : InstallRequest) (hp : FileDepReachable env roots parent)
      (r : Requirement) (hr : r ∈ (env.loadDist parent.wheel_path).requires_dists)
      (u : Url) (hu : r.url = some u) (hs : u.scheme = "file")
      (hw : strEndsWith u.path ".whl" = true) :
      FileDepReachable env roots (InstallRequest.create env parent.target u.path)
  | built (parent : InstallRequest) (hp : FileDepReachable env roots parent)
      (r : Requirement) (hr : r ∈ (env.loadDist parent.wheel_path).requires_dists)
      (u : Url) (hu : r.url = some u) (hs : u.scheme = "file")
      (hw : strEndsWith u.path ".whl" = false) (name : String) :
      FileDepReachable env roots
        (InstallRequest.create env parent.target
          (pjoin (BuildResult.from_request env (BuildRequest.create env parent.target u.path)
            (pjoin env.pexRoot "built_wheels")).dist_dir name))

/-- Reachability from reachable roots collapses to reachability from the
original roots. -/
theorem fileDepReachable_comp (env : Env) (roots roots2 : List InstallRequest)
    (hall : ∀ p ∈ roots2, FileDepReachable env roots p) :
    ∀ ir, FileDepReachable env roots2 ir → FileDepReachable env roots ir := by
  intro ir hir
  induction hir with
  | root ir h2 => exact hall ir h2
  | whl parent _ r hr u hu hs hw ihp =>
      exact FileDepReachable.whl parent ihp r hr u hu hs hw
  | built parent _ r hr u hu hs hw name ihp =>
      exact FileDepReachable.built parent ihp r hr u hu hs hw name

/-- Every install request a level passes to the next recursion is a direct
file-local dependency of one of the scanned wheels. -/
theorem level_output_reachable (env : Env) (σ : CacheState)
    (reqs : List InstallRequest) (analyzed : List ProjectName)
    (ti : List InstallRequest) (tb : List BuildRequest) (analyzed2 : List ProjectName)
    (σ1 : CacheState) (built : List InstallRequest)
    (hlev : analyzeLevel env reqs analyzed [] [] = Except.ok (ti, tb, analyzed2))
    (hbp : buildPhase env σ tb = Except.ok (σ1, built)) :
    ∀ p ∈ orderedUnion ti built, FileDepReachable env reqs p := by
  intro p hp
  rcases (mem_orderedUnion built ti p).mp hp with h | h
  · rcases analyzeLevel_ti_spec env reqs analyzed [] [] ti tb analyzed2 hlev p h with
      h2 | ⟨parent, hparent, r, hr, u, hu, hs, hw, _, heq⟩
    · cases h2
    · rw [heq]
      exact FileDepReachable.whl parent (FileDepReachable.root parent hparent) r hr u hu hs hw
  · rcases buildPhase_values env σ tb σ1 built hbp p h with ⟨br, hbr, name, hpq⟩
    rcases analyzeLevel_tb_spec env reqs analyzed [] [] ti tb analyzed2 hlev br hbr with
      h2 | ⟨parent, hparent, r, hr, u, hu, hs, hw, _, heqbr⟩
    · cases h2
    · rw [hpq, heqbr]
      exact FileDepReachable.built parent (FileDepReachable.root parent hparent) r hr u hu hs
        hw name

/-- Soundness and completeness of any successful run of the closure: the
result keeps every input, is duplicate-free, and contains only
transitively reachable file-local dependencies. -/
theorem resolve_deps_sound (env : Env) :
    ∀ (fuel : Nat) (σ : CacheState) (reqs : List InstallRequest)
      (analyzed : List ProjectName) (σ2 : CacheState) (out : List InstallRequest),
    BuildAndInstallRequest._resolve_direct_file_deps env fuel σ reqs analyzed
      = some (Except.ok (σ2, out)) →
    (∀ ir ∈ reqs, ir ∈ out) ∧ out.Nodup ∧ ∀ ir ∈ out, FileDepReachable env reqs ir := by
  intro fuel
  induction fuel with
  | zero =>
      intro σ reqs analyzed σ2 out h
      cases h
  | succ n ih =>
      intro σ reqs analyzed σ2 out h
      rcases hlev : analyzeLevel env reqs analyzed [] [] with e | ⟨ti, tb, analyzed2⟩
      · rw [resolve_deps_lev_err env n σ reqs analyzed e hlev] at h
        cases h
      rcases hbp : buildPhase env σ tb with e | ⟨σ1, built⟩
      · rw [resolve_deps_bp_err env n σ reqs analyzed ti tb analyzed2 e hlev hbp] at h
        cases h
      by_cases hne : (orderedUnion ti built).isEmpty = true
      · rw [resolve_deps_done env n σ reqs analyzed ti tb analyzed2 σ1 built hlev hbp hne]
          at h
        simp only [Option.some.injEq, Except.ok.injEq, Prod.mk.injEq] at h
        refine ⟨?_, ?_, ?_⟩
        · intro ir hir
          rw [← h.2]
          exact (mem_dedupOrdered reqs ir).mpr hir
        · rw [← h.2]
          exact nodup_dedupOrdered reqs
        · intro ir hir
          rw [← h.2] at hir
          exact FileDepReachable.root ir ((mem_dedupOrdered reqs ir).mp hir)
      · have hnef : (orderedUnion ti built).isEmpty = false := by
          rw [Bool.not_eq_true] at hne
          exact hne
        rcases hin : BuildAndInstallRequest._resolve_direct_file_deps env n σ1
            (orderedUnion ti built) analyzed2 with _ | x
        · rw [resolve_deps_rec_none env n σ reqs analyzed ti tb analyzed2 σ1 built hlev hbp
            hnef hin] at h
          cases h
        rcases x with e | ⟨σr, rec⟩
        · rw [resolve_deps_rec_err env n σ reqs analyzed ti tb analyzed2 σ1 built e hlev hbp
            hnef hin] at h
          cases h
        rw [resolve_deps_rec_ok env n σ reqs analyzed ti tb analyzed2 σ1 built σr rec hlev
          hbp hnef hin] at h
        simp only [Option.some.injEq, Except.ok.injEq, Prod.mk.injEq] at h
        obtain ⟨_, hrecnd, hrecreach⟩ := ih σ1 (orderedUnion ti built) analyzed2 σr rec hin
        refine ⟨?_, ?_, ?_⟩
        · intro ir hir
          rw [← h.2]
          exact (mem_orderedUnion rec (dedupOrdered reqs) ir).mpr
            (Or.inl ((mem_dedupOrdered reqs ir).mpr hir))
        · rw [← h.2]
          exact nodup_orderedUnion rec (dedupOrdered reqs) (nodup_dedupOrdered reqs)
        · intro ir hir
          rw [← h.2] at hir
          rcases (mem_orderedUnion rec (dedupOrdered reqs) ir).mp hir with h2 | h2
          · exact FileDepReachable.root ir ((mem_dedupOrdered reqs ir).mp h2)
          · exact fileDepReachable_comp env reqs (orderedUnion ti built)
              (level_output_reachable env σ reqs analyzed ti tb analyzed2 σ1 built hlev hbp)
              ir (hrecreach ir h2)

/-- C9 (amended): the recursive file-local dependency closure does not
terminate for every input — the analyzed set records only metadata project
names, so a wheel file-referencing itself under a different name recurs
forever (see the counterexample) — but in a well-named environment, where
every file-referenced artifact's metadata carries the project name it is
referenced under and metadata project names are drawn from a finite
universe, it terminates on every input; moreover any successful run
returns a duplicate-free set containing the original install requests and
only transitively discovered file-local dependencies. -/
theorem claim_C9 (env : Env) (U : List ProjectName)
    (hwn : Env.wellNamed env)
    (hU : ∀ p : String, (env.loadDist p).project_name ∈ U) :
    (∀ (σ : CacheState) (reqs : List InstallRequest) (analyzed : List ProjectName),
      terminatesOn env σ reqs analyzed)
    ∧ ∀ (fuel : Nat) (σ σ2 : CacheState) (reqs out : List InstallRequest)
        (analyzed : List ProjectName),
      BuildAndInstallRequest._resolve_direct_file_deps env fuel σ reqs analyzed
        = some (Except.ok (σ2, out)) →
      (∀ ir ∈ reqs, ir ∈ out) ∧ out.Nodup ∧ ∀ ir ∈ out, FileDepReachable env reqs ir := by
  constructor
  · intro σ reqs analyzed
    exact resolve_deps_terminates env U hwn hU (namesLeft U analyzed) analyzed
      (Nat.le_refl _) σ reqs
  · intro fuel σ σ2 reqs out analyzed h
    exact resolve_deps_sound env fuel σ reqs analyzed σ2 out h

/-- A metadata oracle with no dependencies at all: trivially well-named,
with the one project name `a` as universe. -/
def envW9 : Env :=
  { envW with loadDist := fun _ => { project_name := "a", version := 1, requires_dists := [] } }

theorem claim_C9_witness :
    Env.wellNamed envW9 ∧ (∀ p : String, (envW9.loadDist p).project_name ∈ ["a"])
    ∧ terminatesOn envW9 [] [InstallRequest.create envW9 "t" "/w.whl"] [] := by
  have hwn : Env.wellNamed envW9 := by
    intro p r hr
    cases hr
  have hU : ∀ p : String, (envW9.loadDist p).project_name ∈ (["a"] : List ProjectName) := by
    intro p
    exact List.mem_cons_self _ _
  exact ⟨hwn, hU,
    (claim_C9 envW9 ["a"] hwn hU).1 [] [InstallRequest.create envW9 "t" "/w.whl"] []⟩

/-- A parsed direct requirement (pex.requirements): either a plain
requirement or a local-project requirement, whose `as_requirement` oracle
renders it against a built wheel path. -/
inductive ParsedRequirement where
  | pypi (requirement : Requirement)
  | localProject (path : String) (as_requirement : String → Requirement)

/-- The BuildAndInstallRequest state consumed by `install_distributions`:
the categorized build and install requests plus the user's direct
requirements. -/
structure BuildAndInstallRequest where
  build_requests : List BuildRequest
  install_requests : List InstallRequest
  direct_requirements : List ParsedRequirement

/-- `iter_direct_requirements` (with no local-project-to-sdist mapping, as
in `resolve`): plain requirements pass through; a local-project requirement
is rendered once per wheel built from its path, and fails with a fatal
AssertionError when no built wheel corresponds to it. -/
def iterDirectRequirements (build_results : BuildResultsMap) :
    List ParsedRequirement → Except PexError (List Requirement)
  | [] => Except.ok []
  | ParsedRequirement.pypi requirement :: rest =>
      match iterDirectRequirements build_results rest with
      | Except.error e => Except.error e
      | Except.ok rs => Except.ok (requirement :: rs)
  | ParsedRequirement.localProject path as_req :: rest =>
      match (build_results.lookup path).getD [] with
      | [] => Except.error (PexError.noProjectNameForLocalReq path)
      | install_req :: install_reqs =>
          match iterDirectRequirements build_results rest with
          | Except.error e => Except.error e
          | Except.ok rs =>
              Except.ok ((install_req :: install_reqs).map
                (fun ir => as_req ir.wheel_path) ++ rs)

/-- `direct_requirements_by_project_name[r.project_name].add(r)`: the
defaultdict(OrderedSet) insertion. -/
def reqGroupAdd (m : List (ProjectName × List Requirement)) (r : Requirement) :
    List (ProjectName × List Requirement) :=
  match m with
  | [] => [(r.project_name, [r])]
  | (k, s) :: rest =>
      if k = r.project_name then (k, orderedSetAdd s r) :: rest
      else (k, s) :: reqGroupAdd rest r

/-- `distribution in requirement`: the project name matches and the version
satisfies the specifier. -/
def Requirement.containsDist (r : Requirement) (d : Distribution) : Bool :=
  r.project_name == d.project_name && r.specifier_contains d.version

/-- Step 5 of `install_distributions`: attach to each installation the
direct requirements its distribution satisfies under its target, and
collapse the result into an OrderedSet. -/
def finalInstalled (byName : List (ProjectName × List Requirement))
    (installations : List InstalledDistribution) : List InstalledDistribution :=
  dedupOrdered (installations.map (fun idist =>
    idist.with_direct_requirements
      (((byName.lookup idist.distribution.project_name).getD []).filter
        (fun r => r.containsDist idist.distribution
          && idist.target.requirement_applies r))))

/-- Steps 1–4 of `install_distributions`: build the source requests, close
over file-local dependencies (fuel-bounded, as in
`_resolve_direct_file_deps`), render the direct requirements against the
build results and group them by project name, then install the wheels. -/
def installPhase (env : Env) (fuel : Nat) (σ : CacheState) (self : BuildAndInstallRequest) :
    Option (Except PexError
      (CacheState × List (ProjectName × List Requirement) × List InstalledDistribution)) :=
  match (WheelBuilder.build_wheels env σ self.build_requests).2 with
  | Except.error e => some (Except.error e)
  | Except.ok (σ1, build_results) =>
      let to_install := self.install_requests ++ build_results.flatMap (fun kv => kv.2)
      match BuildAndInstallRequest._resolve_direct_file_deps env fuel σ1 to_install [] with
      | none => none
      | some (Except.error e) => some (Except.error e)
      | some (Except.ok (σ2, all_install_requests)) =>
          match iterDirectRequirements build_results self.direct_requirements with
          | Except.error e => some (Except.error e)
          | Except.ok direct_reqs =>
              let byName := direct_reqs.foldl reqGroupAdd []
              let iw := installWheels env σ2 (pjoin env.pexRoot "installed_wheels")
                all_install_requests
              some (Except.ok (iw.2.1, byName, iw.2.2))

/-- `BuildAndInstallRequest.install_distributions`: nothing to do when both
request lists are empty; otherwise run the install phase, then — unless
`ignore_errors` — run the global consistency check over the produced
installations before returning the attached result set. -/
def BuildAndInstallRequest.install_distributions (env : Env) (fuel : Nat) (σ : CacheState)
    (self : BuildAndInstallRequest) (ignore_errors : Bool) :
    Option (Except PexError (CacheState × List InstalledDistribution)) :=
  if self.build_requests.isEmpty && self.install_requests.isEmpty then
    some (Except.ok (σ, []))
  else
    match installPhase env fuel σ self with
    | none => none
    | some (Except.error e) => some (Except.error e)
    | some (Except.ok (σ3, byName, installations)) =>
        if !ignore_errors then
          match BuildAndInstallRequest._check_install installations with
          | some e => some (Except.error e)
          | none => some (Except.ok (σ3, finalInstalled byName installations))
        else some (Except.ok (σ3, finalInstalled byName installations))

/-- `resolve`: the download phase's outputs (the oracle build requests and
download results) are post-processed into one BuildAndInstallRequest, and
the install phase runs with `ignore_errors = ignore_errors or not
transitive`. -/
def resolve (env : Env) (fuel : Nat) (σ : CacheState)
    (direct_requirements : List ParsedRequirement)
    (build_requests : List BuildRequest) (download_results : List DownloadResult)
    (transitive : Bool) (ignore_errors : Bool) :
    Option (Except PexError (CacheState × List InstalledDistribution)) :=
  let build_requests2 := build_requests
    ++ download_results.flatMap (DownloadResult.build_requests env)
  let install_requests := download_results.flatMap (DownloadResult.install_requests env)
  let build_and_install_request : BuildAndInstallRequest :=
    { build_requests := build_requests2, install_requests := install_requests
      direct_requirements := direct_requirements }
  let ignore_errors2 := ignore_errors || !transitive
  BuildAndInstallRequest.install_distributions env fuel σ build_and_install_request
    ignore_errors2

/-- C10 counterexample: a requirement for project b declared by the one
resolved wheel and satisfied by nothing. -/
def reqB : Requirement :=
  { project_name := "b", url := none, specifier := [2], marker_targets := none }

/-- C10 counterexample environment: the download directory holds one wheel
whose metadata requires the absent project b. -/
def envX : Env :=
  { envW with
    listdir := fun _ => ["a-1.0-py3-none-any.whl"]
    loadDist := fun _ => { project_name := "a", version := 1, requires_dists := [reqB] } }

/-- C10 counterexample download result. -/
def drX : DownloadResult := { target := "t", download_dir := "dl" }

/-- C10 counterexample: calling `resolve` with `ignore_errors=False` but
`transitive=False` returns the installed set without running the global
consistency check, although that set violates it (project b is required
and absent), so the check is skipped without having been explicitly
suppressed. -/
theorem claim_C10_counterexample :
    ∃ σ2 out, resolve envX 1 [] [] [] [drX] false false = some (Except.ok (σ2, out))
      ∧ (BuildAndInstallRequest._check_install out).isSome = true
      ∧ specViolationExists out := by
  refine ⟨_, _, rfl, rfl, ?_⟩
  decide

/-- The BuildAndInstallRequest `resolve` constructs in the counterexample
environment. -/
def birX : BuildAndInstallRequest :=
  { build_requests := [] ++ [drX].flatMap (DownloadResult.build_requests envX)
    install_requests := [drX].flatMap (DownloadResult.install_requests envX)
    direct_requirements := [] }

/-- C10 (amended): `resolve` forwards `ignore_errors or not transitive` to
`install_distributions`, so the global consistency check is run across the
produced installations — failing with the aggregated Unsatisfiable report
exactly when `_check_install` finds an unmet or version-mismatched
dependency edge — only when `ignore_errors` is false AND the resolve is
transitive; a non-transitive resolve skips the check even without explicit
suppression (see the counterexample). -/
theorem claim_C10 (env : Env) (fuel : Nat) (σ : CacheState)
    (dr : List ParsedRequirement) (br : List BuildRequest)
    (dls : List DownloadResult) (transitive ignore_errors : Bool) :
    (resolve env fuel σ dr br dls transitive ignore_errors
      = BuildAndInstallRequest.install_distributions env fuel σ
          { build_requests := br ++ dls.flatMap (DownloadResult.build_requests env)
            install_requests := dls.flatMap (DownloadResult.install_requests env)
            direct_requirements := dr }
          (ignore_errors || !transitive))
    ∧ ((ignore_errors || !transitive) = false ↔ ignore_errors = false ∧ transitive = true)
    ∧ ∀ (self : BuildAndInstallRequest)
        (σ3 : CacheState) (byName : List (ProjectName × List Requirement))
        (installations : List InstalledDistribution),
      (self.build_requests.isEmpty && self.install_requests.isEmpty) = false →
      installPhase env fuel σ self = some (Except.ok (σ3, byName, installations)) →
      (∀ e, BuildAndInstallRequest._check_install installations = some e →
        BuildAndInstallRequest.install_distributions env fuel σ self false
          = some (Except.error e))
      ∧ (BuildAndInstallRequest._check_install installations = none →
        BuildAndInstallRequest.install_distributions env fuel σ self false
          = some (Except.ok (σ3, finalInstalled byName installations)))
      ∧ BuildAndInstallRequest.install_distributions env fuel σ self true
          = some (Except.ok (σ3, finalInstalled byName installations)) := by
  refine ⟨rfl, ?_, ?_⟩
  · cases ignore_errors <;> cases transitive <;> simp
  · intro self σ3 byName installations hne hip
    refine ⟨?_, ?_, ?_⟩
    · intro e hck
      simp only [BuildAndInstallRequest.install_distributions, hne, Bool.false_eq_true,
        if_false, hip, hck, Bool.not_false, if_true]
    · intro hck
      simp only [BuildAndInstallRequest.install_distributions, hne, Bool.false_eq_true,
        if_false, hip, hck, Bool.not_false, if_true]
    · simp only [BuildAndInstallRequest.install_distributions, hne, Bool.false_eq_true,
        if_false, hip, Bool.not_true, if_false]

/-- The one-wheel environment exercises the amended C10 theorem: with
`ignore_errors=False` and a transitive resolve, the install phase's result
set fails the consistency check (project b missing) and
`install_distributions` surfaces exactly the aggregated error. -/
theorem claim_C10_witness :
    ∃ σ3 byName installations e,
      ((birX.build_requests.isEmpty && birX.install_requests.isEmpty) = false)
      ∧ installPhase envX 1 [] birX = some (Except.ok (σ3, byName, installations))
      ∧ BuildAndInstallRequest._check_install installations = some e
      ∧ BuildAndInstallRequest.install_distributions envX 1 [] birX false
          = some (Except.error e) := by
  refine ⟨_, _, _, _, rfl, rfl, rfl, ?_⟩
  exact ((claim_C10 envX 1 [] [] [] [drX] true false).2.2 birX _ _ _ rfl rfl).1 _ rfl

end PexResolver
